import Mathlib

/-!
Verification development for the Slyp receipt extraction toolkit
(`receipt.ts`: `transformReceipt`, `validateReceipt` and their helpers).

The upstream payload is an arbitrary JSON value; JavaScript numbers are
modelled as exact rationals (JSON numbers are finite decimals), and the
fallible parts of the pipeline (property access on `null`, method calls on
mistyped values, `Intl` currency formatting, out-of-range `Date`s) are
modelled with `Except`, mirroring the exceptions the JavaScript code can
raise.  Library functions from the Node runtime (`Intl.NumberFormat`,
`Date`, `crypto.createHash`) are modelled by total deterministic stand-ins
whose failure conditions follow the ECMAScript specification; the claims
settled here depend only on those failure conditions and on determinism,
never on the exact characters such a library call produces.
-/

namespace Slyp

/-- A JSON value, the input domain of `transformReceipt`. -/
inductive Json where
  | null : Json
  | bool : Bool → Json
  | num : ℚ → Json
  | str : String → Json
  | arr : List Json → Json
  | obj : List (String × Json) → Json

/-- JavaScript truthiness of a JSON value (`undefined` is represented by
`Option.none` at use sites; `NaN` cannot occur in JSON). -/
def Json.truthy : Json → Bool
  | .null => false
  | .bool b => b
  | .num q => q ≠ 0
  | .str s => s ≠ ""
  | .arr _ => true
  | .obj _ => true

/-- Truthiness of a possibly-`undefined` value. -/
def jsTruthy : Option Json → Bool
  | none => false
  | some v => v.truthy

/-- Property lookup `v.f` on a non-`null` base: objects yield their field
(or `undefined`), primitives and arrays yield `undefined` for the
identifier-named fields the transform reads. -/
def Json.get : Json → String → Option Json
  | .obj fields, name => (fields.find? (fun kv => kv.1 = name)).map (·.2)
  | _, _ => none

/-- Optional-chained lookup `v?.f`. -/
def optGet (v : Option Json) (name : String) : Option Json :=
  match v with
  | none => none
  | some .null => none
  | some w => w.get name

/-- JavaScript `a || b` where `a` may be `undefined`: the left value when
truthy, otherwise the right expression's value. -/
def jsOr (a : Option Json) (b : Json) : Json :=
  match a with
  | some v => if v.truthy then v else b
  | none => b

/-- JavaScript `a || b` kept optional (the right operand may itself be
`undefined`). -/
def jsOrOpt (a b : Option Json) : Option Json :=
  if jsTruthy a then a else b

/-- JavaScript `x || undefined`: normalizes a falsy value to `undefined`. -/
def truthyOrNone (a : Option Json) : Option Json :=
  if jsTruthy a then a else none

/-- The numeric value of a field when `typeof x === 'number'`. -/
def Json.asNum : Json → Option ℚ
  | .num q => some q
  | _ => none

/-- The string value of a field when it is a string. -/
def Json.asStr : Json → Option String
  | .str s => some s
  | _ => none

/-- `typeof v === 'number'` for a possibly-absent value. -/
def numOf (v : Option Json) : Option ℚ :=
  match v with
  | some (.num q) => some q
  | _ => none

/-- `typeof v === 'string'` for a possibly-absent value. -/
def strOf (v : Option Json) : Option String :=
  match v with
  | some (.str s) => some s
  | _ => none

/-- Exceptions the transform can raise (property access on `null`,
method call on a mistyped value, `RangeError` from `Intl`/`Date`). -/
inductive JsErr where
  | typeErr (msg : String) : JsErr
  | rangeErr (msg : String) : JsErr
deriving Repr, DecidableEq

/-- Property access `v.f` on a possibly-`null`/`undefined` base, as the
code writes it without optional chaining: throws a `TypeError` on
`null`. -/
def access (v : Option Json) (name : String) : Except JsErr (Option Json) :=
  match v with
  | none => .error (.typeErr ("cannot read properties of undefined: " ++ name))
  | some .null => .error (.typeErr ("cannot read properties of null: " ++ name))
  | some w => .ok (w.get name)

/-- Scale a rational by powers of ten until it is an integer, returning
the integer together with the number of scalings (fuel-bounded; every
number reachable in the pipeline is a decimal, i.e. has a denominator of
the form `2^a * 5^b`, and far fewer than 1400 digits). -/
def decimalScale : Nat → ℚ → Option (ℤ × Nat)
  | 0, q => if q.den = 1 then some (q.num, 0) else none
  | fuel + 1, q =>
    if q.den = 1 then some (q.num, 0)
    else (decimalScale fuel (q * 10)).map (fun p => (p.1, p.2 + 1))

/-- Digits of a natural number, as a string. -/
def natDigits (n : Nat) : String := toString n

/-- Render a scaled decimal `n / 10^k` (with `k` minimal) the way
JavaScript prints such a number: no trailing zeros, a leading `0` before
the point. -/
def decimalString (n : ℤ) (k : Nat) : String :=
  let sign := if n < 0 then "-" else ""
  let digits := natDigits n.natAbs
  if k = 0 then sign ++ digits
  else
    let padded :=
      if digits.length ≤ k then String.mk (List.replicate (k + 1 - digits.length) '0') ++ digits
      else digits
    let cut := padded.length - k
    sign ++ (padded.take cut) ++ "." ++ (padded.drop cut)

/-- JavaScript `Number`-to-string conversion for the decimal rationals of
the model (numbers large enough for exponent form do not occur in
receipt payloads). -/
def numToString (q : ℚ) : String :=
  match decimalScale 1400 q with
  | some (n, k) => decimalString n k
  | none => toString q.num ++ "/" ++ toString q.den

/-- JavaScript `ToString` on a JSON value (arrays join with `,` mapping
`null` elements to the empty string; objects print `[object Object]`).
The flag marks the array-element rendering of `null`; the fuel only
serves structural recursion, is decremented once per nesting level, and
`2 ^ 64` exceeds the depth of any physically representable value. -/
def Json.jsToStringAux : Nat → Bool → Json → String
  | _, true, .null => ""
  | _, false, .null => "null"
  | _, _, .bool true => "true"
  | _, _, .bool false => "false"
  | _, _, .num q => numToString q
  | _, _, .str s => s
  | fuel + 1, _, .arr xs =>
    String.intercalate "," (xs.map (fun x => Json.jsToStringAux fuel true x))
  | 0, _, .arr _ => ""
  | _, _, .obj _ => "[object Object]"

/-- Recursion fuel exceeding the depth of any representable JSON value. -/
def jsFuel : Nat := 2 ^ 64

/-- JavaScript `ToString` on a JSON value. -/
def Json.jsToString (v : Json) : String := Json.jsToStringAux jsFuel false v

/-- `ToString` on an array element (`undefined`/`null` render empty in
`Array.prototype.join`). -/
def joinElem (v : Option Json) : String :=
  match v with
  | none => ""
  | some w => Json.jsToStringAux jsFuel true w

/-- The integer number of cents `toFixed(2)` selects: the sign is taken
first and the magnitude rounds half away from zero (ECMAScript
`Number.prototype.toFixed`). -/
def cents (q : ℚ) : ℤ :=
  if q < 0 then -(Rat.floor ((-q) * 100 + 1 / 2)) else Rat.floor (q * 100 + 1 / 2)

/-- `const round2 = (n) => Number(n.toFixed(2))`. -/
def round2 (q : ℚ) : ℚ := (cents q : ℚ) / 100

/-- `n.toFixed(2)`: the rounded value rendered with exactly two decimal
places. -/
def fmt2 (q : ℚ) : String :=
  let c := cents q
  let sign := if c < 0 ∨ q < 0 then "-" else ""
  let a := c.natAbs
  sign ++ natDigits (a / 100) ++ "." ++
    (if a % 100 < 10 then "0" else "") ++ natDigits (a % 100)

/-- Substring search over character lists (the semantics of a bare
regex-literal test such as `/VISA/.test(x)`). -/
def containsSeg (l pat : List Char) : Bool :=
  match l with
  | [] => pat.isEmpty
  | _ :: t => pat.isPrefixOf l || containsSeg t pat

/-- Substring search on strings. -/
def strContainsSub (s pat : String) : Bool := containsSeg s.toList pat.toList

/-- Case-insensitive prefix test (the `i` flag on an anchored regex). -/
def ciStartsWith (pre s : String) : Bool :=
  (s.take pre.length).toLower = pre.toLower

/-- `normalizeMethod` from `receipt.ts`: uppercase, then classify by
substring patterns in fixed priority order, falling back to the
uppercased label or `undefined` when it is empty. -/
def normalizeMethod (s : Option String) : Option String :=
  let x := (s.getD "").toUpper
  if strContainsSub x "VISA" then some "VISA"
  else if strContainsSub x "MASTERCARD" || strContainsSub x "MC" then some "MASTERCARD"
  else if strContainsSub x "AMEX" || strContainsSub x "AMERICAN EXPRESS" then some "AMEX"
  else if strContainsSub x "APPLE PAY" then some "APPLE_PAY"
  else if strContainsSub x "GOOGLE PAY" || strContainsSub x "G PAY" then some "GOOGLE_PAY"
  else if x = "" then none else some x

/-- The capture of `rawName.match(/\*+(\d{2,4})/)`: the leftmost run of
asterisks immediately followed by at least two digits wins, and the
greedy group captures at most four of the following digits. -/
def maskedCapture : List Char → Option (List Char)
  | [] => none
  | c :: cs =>
    if c = '*' then
      let ds := ((cs.dropWhile (· = '*')).takeWhile Char.isDigit).take 4
      if 2 ≤ ds.length then some ds else maskedCapture cs
    else maskedCapture cs

/-- character class `[A-Za-z ]` of the payment-method prefix regex. -/
def isMethodChar (c : Char) : Bool := c.isAlpha || c = ' '

/-- Continuation of the lazy match `^([A-Za-z ]+?)(?:\s*\(|$)`: with at
least one class character consumed (held reversed in `acc`), stop as
soon as the rest is empty or is whitespace followed by `(`. -/
def methodScan (acc : List Char) : List Char → Option String
  | [] => some (String.mk acc.reverse)
  | c :: cs =>
    if ((c :: cs).dropWhile Char.isWhitespace).head? = some '(' then
      some (String.mk acc.reverse)
    else if isMethodChar c then methodScan (c :: acc) cs
    else none

/-- The capture of `rawName.match(/^([A-Za-z ]+?)(?:\s*\(|$)/)`. -/
def methodMatch1 (s : String) : Option String :=
  match s.toList with
  | [] => none
  | c :: cs => if isMethodChar c then methodScan [c] cs else none

/-- `String.prototype.split` at a separator character: the segments
between the separators, in order (an empty string yields `[""]`). -/
def splitCharsAux (p : Char → Bool) : List Char → List Char → List String
  | [], acc => [String.mk acc.reverse]
  | c :: cs, acc =>
    if p c then String.mk acc.reverse :: splitCharsAux p cs []
    else splitCharsAux p cs (c :: acc)

/-- `String.prototype.split` at a separator character. -/
def strSplit (p : Char → Bool) (s : String) : List String := splitCharsAux p s.data []

/-- The whitespace `String.prototype.trim` strips. -/
def isJsSpace (c : Char) : Bool := c = ' ' ∨ c = '\t' ∨ c = '\n' ∨ c = '\r'

/-- `String.prototype.trim`. -/
def jsTrim (s : String) : String :=
  String.mk (((s.data.dropWhile isJsSpace).reverse.dropWhile isJsSpace).reverse)

/-- Split a blob into lines (`raw.split(/\r?\n/)`; the subsequent
per-line `trim` also removes any carriage return). -/
def splitLines (s : String) : List String := strSplit (fun c => c = '\n') s

/-- One `grab` of `parseRawPaymentMeta`: the first trimmed, non-empty
line matching `^LABEL\s*(.+)$` case-insensitively, yielding the trimmed
remainder after the label. -/
def grabLine (lines : List String) (label : String) : Option String :=
  (lines.find? (fun l => ciStartsWith label l && label.length < l.length)).map
    (fun l => jsTrim (l.drop label.length))

/-- `PaymentCardMeta`: terminal slip fields. -/
structure PaymentCardMeta where
  merchantId : Option String
  terminalId : Option String
  stan : Option String
  rrn : Option String
  authCode : Option String
  accountType : Option String
  transactionType : Option String
  rawText : String
deriving Repr, DecidableEq

/-- `parseRawPaymentMeta` on a string blob (the transform throws before
reaching it when `raw_payment_data` is truthy but not a string). -/
def parseRawPaymentMeta (raw : String) : PaymentCardMeta :=
  let lines := ((splitLines raw).map jsTrim).filter (fun l => l ≠ "")
  { merchantId := grabLine lines "MERCHANT ID:"
    terminalId := grabLine lines "TERMINAL ID:"
    stan := grabLine lines "STAN:"
    rrn := grabLine lines "RRN:"
    authCode := grabLine lines "AUTH:"
    accountType := grabLine lines "ACCT TYPE:"
    transactionType := grabLine lines "TRANS TYPE:"
    rawText := raw }

/-- ECMA-402 `IsWellFormedCurrencyCode`: exactly three ASCII letters;
`Intl.NumberFormat` raises a `RangeError` otherwise. -/
def wellFormedCurrency (c : String) : Bool :=
  c.length = 3 && c.toList.all Char.isAlpha

/-- Modelled from the spec: `Intl.NumberFormat('en-AU', {style:
'currency', currency}).format(amount)`.  The stand-in keeps the two
properties the claims rely on: it raises `RangeError` exactly when
`ToString(currency)` is not a well-formed currency code, and it is a
total deterministic function of its arguments. -/
def fmtMoney (amount : ℚ) (ccy : Json) : Except JsErr String :=
  let code := ccy.jsToString
  if wellFormedCurrency code then .ok (code ++ " " ++ fmt2 amount)
  else .error (.rangeErr ("invalid currency code: " ++ code))

/-- A lowercase hexadecimal digit. -/
def hexDigitChar (d : Nat) : Char :=
  if d < 10 then Char.ofNat (48 + d) else Char.ofNat (87 + d)

/-- Accumulate hexadecimal digits, most significant first (the fuel
bounds the digit count; 32 digits cover every 64-bit value). -/
def natToHexAux : Nat → Nat → List Char → List Char
  | _, 0, acc => acc
  | 0, _, acc => acc
  | fuel + 1, n + 1, acc => natToHexAux fuel ((n + 1) / 16) (hexDigitChar ((n + 1) % 16) :: acc)

/-- Hex rendering of a natural number (lowercase digits). -/
def natToHex (n : Nat) : String :=
  if n = 0 then "0" else String.mk (natToHexAux 32 n [])

/-- One step of a 64-bit FNV-style fold. -/
def fnvStep (h b : Nat) : Nat := ((h ^^^ b) * 16777619) % (2 ^ 64)

/-- Modelled from the spec: the hex-encoded digest of
`createHash('sha256')` from `node:crypto`, an external library call.
The stand-in is a total deterministic hex-valued hash of the input
string; the claims rely only on totality and determinism, never on the
digest's value. -/
def hashHex (s : String) : String :=
  natToHex (s.toList.foldl (fun h c => fnvStep h c.toNat) 14695981039346656037)

/-- Escape a string for JSON output (`JSON.stringify`). -/
def escapeJsonString (s : String) : String :=
  s.toList.foldl (fun acc c =>
    acc ++ (if c = '"' then "\\\"" else if c = '\\' then "\\\\"
            else if c = '\n' then "\\n" else if c = '\r' then "\\r"
            else if c = '\t' then "\\t" else String.singleton c)) ""

/-- `JSON.stringify` on a JSON value (never throws on an acyclic JSON
value, which is the whole input domain here); the fuel only serves
structural recursion, decremented once per nesting level. -/
def Json.stringifyAux : Nat → Json → String
  | _, .null => "null"
  | _, .bool true => "true"
  | _, .bool false => "false"
  | _, .num q => numToString q
  | _, .str s => "\"" ++ escapeJsonString s ++ "\""
  | fuel + 1, .arr xs =>
    "[" ++ String.intercalate "," (xs.map (fun x => Json.stringifyAux fuel x)) ++ "]"
  | fuel + 1, .obj fs =>
    "\x7b" ++ String.intercalate ","
      (fs.map (fun kv =>
        "\"" ++ escapeJsonString kv.1 ++ "\":" ++ Json.stringifyAux fuel kv.2)) ++ "\x7d"
  | 0, .arr _ => ""
  | 0, .obj _ => ""

/-- `JSON.stringify` on a JSON value. -/
def Json.stringify (v : Json) : String := Json.stringifyAux jsFuel v

/-- `sha256Object` from `receipt.ts`: `JSON.stringify` cannot throw on an
acyclic JSON value, so the `catch` branch is unreachable and the digest
is always present. -/
def sha256Object (j : Json) : Option String := some (hashHex j.stringify)

-- ----------------------
-- Domain types (the runtime shapes `transformReceipt` actually builds;
-- fields the code can fill with arbitrary upstream values are `Json`)
-- ----------------------

/-- `SCHEMA_VERSION` from `receipt.ts`. -/
def SCHEMA_VERSION : String := "1.0.0"

structure ReceiptItem where
  name : Json
  sku : Option String
  apn : Option String
  colour : Option String
  size : Option String
  unitPrice : ℚ
  unitPriceFormatted : String
  quantity : ℚ
  lineTotal : ℚ
  lineTotalFormatted : String
  discount : Option ℚ
  tax : Option ℚ
  currency : Json

structure TaxLine where
  title : Option Json
  amount : ℚ
  amountFormatted : String
  taxType : Option Json

structure PaymentDetail where
  method : Option String
  maskedCard : Option String
  amount : ℚ
  amountFormatted : String
  rawName : String
  paymentType : Option Json

structure ReturnsPolicy where
  barcode : Option Json
  periodDays : Option Json
  policyText : Option Json

structure LoyaltyProgram where
  program : Option Json
  maskedId : Option String

structure StoreAddress where
  street : Option Json
  street2 : Option Json
  suburb : Option Json
  state : Option Json
  postcode : Option Json
  countryCode : Option Json
  full : String

structure ReceiptTotals where
  currency : Json
  total : ℚ
  totalFormatted : String
  subtotal : Option ℚ
  subtotalFormatted : Option String
  taxTotal : Option ℚ
  taxTotalFormatted : Option String
  discountTotal : Option ℚ
  itemCount : Option ℚ
  computedItemQuantity : ℚ
  taxes : List TaxLine

structure ReceiptIdentities where
  externalReceiptId : Option Json
  orderNumber : Option Json
  receiptType : Option Json
  isTaxInvoice : Bool

structure ReceiptTimestamps where
  issuedAtEpoch : Option ℚ
  issuedAtISO : Option Json
  issuedDate : Option String
  issuedTime : Option String
  timezone : Option Json

structure MerchantInfo where
  merchantName : Option Json
  storeName : Option Json
  abn : Option Json
  phone : Option Json
  address : Option StoreAddress

structure ReceiptMeta where
  schemaVersion : String
  source : String
  fetchedAtISO : String
  rawHash : Option String

structure PaymentSummary where
  totalPaid : ℚ
  totalPaidFormatted : String
  methods : List String

structure Receipt where
  meta : ReceiptMeta
  identities : ReceiptIdentities
  timestamps : ReceiptTimestamps
  merchant : MerchantInfo
  totals : ReceiptTotals
  items : List ReceiptItem
  aggregatedItems : List ReceiptItem
  payments : List PaymentDetail
  paymentSummary : PaymentSummary
  paymentCardMeta : Option PaymentCardMeta
  returnsPolicy : Option ReturnsPolicy
  loyaltyPrograms : Option (List LoyaltyProgram)
  notes : Option (List String)

-- ----------------------
-- Field extractors
-- ----------------------

/-- `apiReceiptData?.f`. -/
def payloadGet (p : Json) (f : String) : Option Json := optGet (some p) f

/-- Assignment `m[k] = v` on a plain object: a later assignment
overwrites the value but keeps the key's original position. -/
def assocSet (m : List (String × String)) (k v : String) : List (String × String) :=
  if m.any (fun kv => kv.1 = k) then
    m.map (fun kv => if kv.1 = k then (k, v) else kv)
  else m ++ [(k, v)]

/-- Lookup `m[k]`. -/
def assocGet (m : List (String × String)) (k : String) : Option String :=
  (m.find? (fun kv => kv.1 = k)).map (·.2)

/-- One step of the `item_properties` fold: `"Key: Value"` splits on the
first colon; a `p?.title` that is truthy but not a string makes
`title.split` throw. -/
def propStep (m : List (String × String)) (p : Json) : Except JsErr (List (String × String)) :=
  let titleOpt := optGet (some p) "title"
  if jsTruthy titleOpt then
    match titleOpt with
    | some (.str t) =>
      match strSplit (fun c => c = ':') t with
      | [] => .ok m
      | k :: rest =>
        if k ≠ "" ∧ rest ≠ [] then
          .ok (assocSet m (jsTrim k) (jsTrim (String.intercalate ":" rest)))
        else .ok m
    | _ => .error (.typeErr "title.split is not a function")
  else .ok m

/-- `basket_items`, guarded with `Array.isArray`. -/
def rawBasketItems (payload : Json) : List Json :=
  match payloadGet payload "basket_items" with
  | some (.arr xs) => xs
  | _ => []

/-- `x || []` followed by an array-method call: a truthy non-array
throws. -/
def listOfJs (v : Option Json) (label : String) : Except JsErr (List Json) :=
  match jsOr v (.arr []) with
  | .arr xs => .ok xs
  | _ => .error (.typeErr (label ++ ": not an array"))

/-- Build one `ReceiptItem` from a `basket_items` entry (the mapper
inside `transformReceipt`). -/
def buildItem (payload : Json) (entry : Json) : Except JsErr ReceiptItem := do
  let productOpt ← access (some entry) "product"
  let product : Json := jsOr productOpt (.obj [])
  let pricing : Json := jsOr (product.get "pricing") (.obj [])
  let rawQty : Option ℚ := numOf (product.get "quantity_purchased")
  let quantity : ℚ :=
    match rawQty with
    | some n => if 0 < n then n else 1
    | none => 1
  let unitPriceRaw : ℚ := (numOf (pricing.get "price")).getD 0
  let unitPrice := round2 unitPriceRaw
  let currencyGuess : Json :=
    jsOr (pricing.get "currency_code") (jsOr (payloadGet payload "currency_code") (.str "AUD"))
  let unitPriceFormatted ← fmtMoney unitPrice currencyGuess
  let lineTotal := round2 (unitPrice * quantity)
  let lineTotalFormatted ← fmtMoney lineTotal currencyGuess
  let itemProps ← listOfJs (product.get "item_properties") "item_properties"
  let propMap ← itemProps.foldlM propStep []
  let name : Json := jsOr (product.get "name") (jsOr (product.get "title") (.str "Unknown Item"))
  .ok { name
        sku := assocGet propMap "SKU"
        apn := assocGet propMap "APN"
        colour := assocGet propMap "Colour"
        size := assocGet propMap "Size"
        unitPrice, unitPriceFormatted, quantity, lineTotal, lineTotalFormatted
        discount := numOf (pricing.get "discount")
        tax := numOf (pricing.get "tax")
        currency := currencyGuess }

/-- `items` from the payload. -/
def buildItems (payload : Json) : Except JsErr (List ReceiptItem) :=
  (rawBasketItems payload).mapM (buildItem payload)

-- ----------------------
-- Aggregation engine
-- ----------------------

/-- The composite key `[name, sku, apn, colour, size, unitPrice,
currency].join('|')` (a JavaScript `join` renders `undefined` as the
empty string and applies `ToString` to the rest). -/
def aggKey (it : ReceiptItem) : String :=
  String.intercalate "|"
    [it.name.jsToString, it.sku.getD "", it.apn.getD "", it.colour.getD "",
     it.size.getD "", numToString it.unitPrice, it.currency.jsToString]

/-- Merge a later item into the stored aggregate for its key. -/
def mergeAgg (existing it : ReceiptItem) : Except JsErr ReceiptItem := do
  let newTotal := round2 (existing.lineTotal + it.lineTotal)
  let fmtd ← fmtMoney newTotal it.currency
  .ok { existing with
        quantity := existing.quantity + it.quantity
        lineTotal := newTotal
        lineTotalFormatted := fmtd }

/-- One step of the aggregation fold over the insertion-ordered map. -/
def aggStep (acc : List (String × ReceiptItem)) (it : ReceiptItem) :
    Except JsErr (List (String × ReceiptItem)) :=
  let key := aggKey it
  if acc.any (fun kv => kv.1 = key) then
    acc.mapM (fun kv =>
      if kv.1 = key then do
        let m ← mergeAgg kv.2 it
        pure (key, m)
      else pure kv)
  else .ok (acc ++ [(key, it)])

/-- `aggregatedItems`: fold the items through the keyed map and read the
values back in insertion order. -/
def aggregateItems (items : List ReceiptItem) : Except JsErr (List ReceiptItem) := do
  let m ← items.foldlM aggStep []
  .ok (m.map (·.2))

-- ----------------------
-- Tax, payment and loyalty extractors
-- ----------------------

/-- One `tax_details` entry: the amount accepts a nested
`{price: number}` or a bare number, defaulting to `0`; the unguarded
`t.title` access afterwards throws on a `null` entry. -/
def buildTaxLine (t : Json) : Except JsErr TaxLine := do
  let amountOpt := optGet (some t) "amount"
  let amountNum : ℚ :=
    match numOf (optGet amountOpt "price") with
    | some q => q
    | none => (numOf amountOpt).getD 0
  let titleOpt ← access (some t) "title"
  .ok { title := titleOpt
        taxType := jsOrOpt (t.get "tax_type") (optGet amountOpt "tax_type")
        amount := amountNum
        amountFormatted := fmt2 amountNum }

/-- `const rawName: string = p.name || ''` followed by `rawName.match`:
a truthy non-string name makes `.match` throw. -/
def rawNameOf (p : Json) : Except JsErr String :=
  match jsOr (p.get "name") (.str "") with
  | .str s => pure s
  | _ => .error (.typeErr "rawName.match is not a function")

/-- `normalizeMethod(methodGuess)` on the runtime value: `(s ||
'').toUpperCase()` throws when the guess is truthy but not a string. -/
def methodOf (methodGuess : Option Json) : Except JsErr (Option String) :=
  match methodGuess with
  | some (.str s) => pure (normalizeMethod (some s))
  | some v =>
    if v.truthy then .error (.typeErr "toUpperCase is not a function")
    else pure (normalizeMethod none)
  | none => pure (normalizeMethod none)

/-- One `payments` entry (the mapper inside `transformReceipt`). -/
def buildPayment (payload : Json) (p : Json) : Except JsErr PaymentDetail := do
  let amountF ← access (some p) "amount"
  let amountNum : ℚ := round2 ((match amountF with | some (.num q) => some q | _ => none).getD 0)
  let rawName ← rawNameOf p
  let maskedCard : Option String :=
    (maskedCapture rawName.toList).map (fun ds => "**** *" ++ String.mk ds)
  let pmt := p.get "payment_method_type"
  let methodGuess : Option Json :=
    if jsTruthy pmt then pmt
    else (methodMatch1 rawName).map (fun s => .str (jsTrim s))
  let method ← methodOf methodGuess
  let amountFormatted ← fmtMoney amountNum (jsOr (payloadGet payload "currency_code") (.str "AUD"))
  .ok { method, maskedCard, amount := amountNum, amountFormatted, rawName
        paymentType := jsOrOpt (p.get "payment_type") (p.get "payment_method_type") }

/-- Lowercase-compared prefix test on character lists (`pat` must be
given lowercase). -/
def ciPrefixList (pat l : List Char) : Bool :=
  (l.take pat.length).map Char.toLower = pat

/-- The capture of `description.match(/Loyalty ID:\s*(.*)$/i)`: the
first occurrence of the label whose remainder, after the whitespace the
`\s*` absorbs, contains no newline (`.` cannot cross one and `$` only
matches at the very end). -/
def loyaltyScan : List Char → Option String
  | [] => none
  | c :: cs =>
    let lbl := "loyalty id:".toList
    if ciPrefixList lbl (c :: cs) then
      let tail := ((c :: cs).drop lbl.length).dropWhile Char.isWhitespace
      if tail.contains '\n' then loyaltyScan cs else some (String.mk tail)
    else loyaltyScan cs

/-- `maskedId` from a loyalty `description` string (the capture is then
trimmed). -/
def loyaltyMaskedId (d : String) : Option String :=
  (loyaltyScan d.toList).map jsTrim

/-- One `loyalty` entry: the unguarded `l.description` access throws on
a `null` entry; the truthiness filter is applied afterwards by the
caller, as in the source. -/
def buildLoyalty1 (l : Json) : Except JsErr LoyaltyProgram := do
  let descF ← access (some l) "description"
  let maskedId : Option String :=
    match descF with
    | some (.str d) => loyaltyMaskedId d
    | _ => none
  .ok { program := l.get "title", maskedId }

/-- The `.filter(l => l.program || l.maskedId)` predicate. -/
def loyaltyKept (l : LoyaltyProgram) : Bool :=
  jsTruthy l.program || (l.maskedId.getD "") ≠ ""

-- ----------------------
-- Address and returns policy
-- ----------------------

/-- `Object.keys(x).length` for the value shapes reachable at the
address source (primitive wrappers expose index keys for strings and
arrays, none for numbers and booleans). -/
def keysLength : Json → Nat
  | .obj fs => fs.length
  | .arr xs => xs.length
  | .str s => s.length
  | _ => 0

/-- The optional `address` block. -/
def buildAddress (payload : Json) : Option StoreAddress :=
  let addrSrc := jsOr (optGet (payloadGet payload "merchant_detail") "address") (.obj [])
  if keysLength addrSrc = 0 then none
  else some
    { street := truthyOrNone (addrSrc.get "street")
      street2 := truthyOrNone (addrSrc.get "street_2")
      suburb := truthyOrNone (addrSrc.get "suburb")
      state := truthyOrNone (addrSrc.get "state")
      postcode := truthyOrNone (addrSrc.get "postcode")
      countryCode := truthyOrNone (addrSrc.get "country_code")
      full := String.intercalate ", "
        (([addrSrc.get "street", addrSrc.get "street_2", addrSrc.get "suburb",
           addrSrc.get "state", addrSrc.get "postcode"].filterMap
          (fun v => if jsTruthy v then some ((v.getD .null).jsToString) else none))) }

/-- The optional `returnsPolicy` block (built, possibly with every field
absent, whenever `returns` is truthy). -/
def buildReturns (payload : Json) : Option ReturnsPolicy :=
  match payloadGet payload "returns" with
  | some r =>
    if r.truthy then
      some { barcode := truthyOrNone (r.get "return_barcode")
             periodDays := truthyOrNone (r.get "return_period")
             policyText := truthyOrNone (r.get "return_policy_text") }
    else none
  | none => none

-- ----------------------
-- `Number()` coercion (for the discount field)
-- ----------------------

/-- Value of a decimal digit list. -/
def digitsToNat (l : List Char) : Nat :=
  l.foldl (fun a c => a * 10 + (c.toNat - 48)) 0

def isHexDigit (c : Char) : Bool :=
  c.isDigit || ('a' ≤ c && c ≤ 'f') || ('A' ≤ c && c ≤ 'F')

def hexDigitVal (c : Char) : Nat :=
  if c.isDigit then c.toNat - 48 else if 'a' ≤ c then c.toNat - 87 else c.toNat - 55

/-- Parse a whole digit string in the given radix. -/
def parseRadix (radix : Nat) (isD : Char → Bool) (val : Char → Nat) (l : List Char) :
    Option ℚ :=
  if l ≠ [] ∧ l.all isD then some ((l.foldl (fun a c => a * radix + val c) 0 : Nat) : ℚ)
  else none

/-- Optional exponent suffix of a decimal literal. -/
def parseExpPart : List Char → Option ℤ
  | [] => some 0
  | c :: rest =>
    if c = 'e' ∨ c = 'E' then
      match rest with
      | '+' :: ds => if ds ≠ [] ∧ ds.all Char.isDigit then some (digitsToNat ds) else none
      | '-' :: ds => if ds ≠ [] ∧ ds.all Char.isDigit then some (-(digitsToNat ds : ℤ)) else none
      | ds => if ds ≠ [] ∧ ds.all Char.isDigit then some (digitsToNat ds) else none
    else none

/-- Integer-and-fraction part of a decimal literal. -/
def parseMantissa (l : List Char) : Option (ℚ × List Char) :=
  let ip := l.takeWhile Char.isDigit
  let r1 := l.drop ip.length
  match r1 with
  | '.' :: r2 =>
    let fp := r2.takeWhile Char.isDigit
    let r3 := r2.drop fp.length
    if ip.isEmpty && fp.isEmpty then none
    else some ((digitsToNat ip : ℚ) + (digitsToNat fp : ℚ) / (10 : ℚ) ^ fp.length, r3)
  | _ => if ip.isEmpty then none else some ((digitsToNat ip : ℚ), r1)

/-- An unsigned decimal literal with optional exponent; `Infinity` is
folded into the `NaN` outcome because its only consumer rejects every
non-finite value identically. -/
def parseSignless (l : List Char) : Option ℚ :=
  if l = "Infinity".toList then none
  else do
    let (m, rest) ← parseMantissa l
    let e ← parseExpPart rest
    pure (m * (10 : ℚ) ^ e)

/-- ECMAScript `StringToNumber` for the literal forms `Number()`
accepts, with every non-finite outcome mapped to `none`. -/
def parseNumberString (s : String) : Option ℚ :=
  let t := jsTrim s
  if t = "" then some 0
  else
    match t.toList with
    | '0' :: 'x' :: rest => parseRadix 16 isHexDigit hexDigitVal rest
    | '0' :: 'X' :: rest => parseRadix 16 isHexDigit hexDigitVal rest
    | '0' :: 'b' :: rest => parseRadix 2 (fun c => c = '0' ∨ c = '1') (fun c => c.toNat - 48) rest
    | '0' :: 'B' :: rest => parseRadix 2 (fun c => c = '0' ∨ c = '1') (fun c => c.toNat - 48) rest
    | '0' :: 'o' :: rest => parseRadix 8 (fun c => '0' ≤ c ∧ c ≤ '7') (fun c => c.toNat - 48) rest
    | '0' :: 'O' :: rest => parseRadix 8 (fun c => '0' ≤ c ∧ c ≤ '7') (fun c => c.toNat - 48) rest
    | '+' :: rest => parseSignless rest
    | '-' :: rest => (parseSignless rest).map Neg.neg
    | l => parseSignless l

/-- `Number(v)` for a JSON value, `none` standing for every non-finite
outcome (`NaN`, `±Infinity`). -/
def jsToNumber : Json → Option ℚ
  | .null => some 0
  | .bool b => some (if b then 1 else 0)
  | .num q => some q
  | .str s => parseNumberString s
  | .arr xs => parseNumberString ((Json.arr xs).jsToString)
  | .obj _ => none

-- ----------------------
-- `Date` model (epoch maths per the ECMAScript specification)
-- ----------------------

/-- Truncation toward zero. -/
def ratTrunc (q : ℚ) : ℤ := if 0 ≤ q then Rat.floor q else -(Rat.floor (-q))

/-- ECMAScript `TimeClip`: millisecond values beyond `8.64e15` in
magnitude denote an invalid date. -/
def msClip (t : ℚ) : Option ℤ :=
  if |t| ≤ 8640000000000000 then some (ratTrunc t) else none

/-- Proleptic-Gregorian date from a day number (days since 1970-01-01). -/
def civilFromDays (day : ℤ) : ℤ × ℤ × ℤ :=
  let z := day + 719468
  let era : ℤ := Int.fdiv z 146097
  let doe : ℤ := z - era * 146097
  let yoe : ℤ := Int.fdiv (doe - Int.fdiv doe 1460 + Int.fdiv doe 36524 - Int.fdiv doe 146096) 365
  let y : ℤ := yoe + era * 400
  let doy : ℤ := doe - (365 * yoe + Int.fdiv yoe 4 - Int.fdiv yoe 100)
  let mp : ℤ := Int.fdiv (5 * doy + 2) 153
  let d : ℤ := doy - Int.fdiv (153 * mp + 2) 5 + 1
  let m : ℤ := mp + (if mp < 10 then 3 else -9)
  (y + (if m ≤ 2 then 1 else 0), m, d)

/-- Day number of a proleptic-Gregorian date. -/
def daysFromCivil (y m d : ℤ) : ℤ :=
  let y2 := y - (if m ≤ 2 then 1 else 0)
  let era : ℤ := Int.fdiv y2 400
  let yoe : ℤ := y2 - era * 400
  let doy : ℤ := Int.fdiv (153 * (m + (if 2 < m then -3 else 9)) + 2) 5 + d - 1
  let doe : ℤ := yoe * 365 + Int.fdiv yoe 4 - Int.fdiv yoe 100 + doy
  era * 146097 + doe - 719468

def pad2 (n : Nat) : String := if n < 10 then "0" ++ toString n else toString n

def pad3 (n : Nat) : String :=
  if n < 10 then "00" ++ toString n else if n < 100 then "0" ++ toString n else toString n

def padTo (w : Nat) (n : Nat) : String :=
  let s := toString n
  if s.length < w then String.mk (List.replicate (w - s.length) '0') ++ s else s

/-- `Date.prototype.toISOString` for a valid millisecond value
(expanded-year form outside 0000–9999). -/
def isoFromMs (ms : ℤ) : String :=
  let day := Int.fdiv ms 86400000
  let msod := (ms - day * 86400000).toNat
  let c := civilFromDays day
  let y := c.1
  let yearStr :=
    if 0 ≤ y ∧ y ≤ 9999 then padTo 4 y.toNat
    else if y < 0 then "-" ++ padTo 6 (-y).toNat
    else "+" ++ padTo 6 y.toNat
  yearStr ++ "-" ++ pad2 c.2.1.toNat ++ "-" ++ pad2 c.2.2.toNat ++ "T" ++
    pad2 (msod / 3600000) ++ ":" ++ pad2 (msod / 60000 % 60) ++ ":" ++
    pad2 (msod / 1000 % 60) ++ "." ++ pad3 (msod % 1000) ++ "Z"

/-- `d.toISOString().slice(0, 10)`. -/
def isoDate (ms : ℤ) : String := (isoFromMs ms).take 10

/-- `d.toISOString().slice(11, 16)`. -/
def isoTime (ms : ℤ) : String := ((isoFromMs ms).drop 11).take 5

/-- Parse exactly two digits. -/
def parse2 : List Char → Option (Nat × List Char)
  | a :: b :: rest =>
    if a.isDigit ∧ b.isDigit then some ((a.toNat - 48) * 10 + (b.toNat - 48), rest) else none
  | _ => none

/-- Parse exactly four digits. -/
def parse4 : List Char → Option (Nat × List Char)
  | a :: b :: c :: d :: rest =>
    if a.isDigit ∧ b.isDigit ∧ c.isDigit ∧ d.isDigit then
      some ((a.toNat - 48) * 1000 + (b.toNat - 48) * 100 + (c.toNat - 48) * 10 + (d.toNat - 48), rest)
    else none
  | _ => none

/-- Modelled from the spec: `new Date(string)` parsing, restricted to the
ISO 8601 `YYYY-MM-DD[THH:MM[:SS[.sss]]][Z]` forms interpreted as UTC
(the only forms the upstream payload carries); anything else is an
invalid date.  Only the valid/invalid split matters downstream, and it
is guarded by an `isNaN` check in the source. -/
def parseJsDateString (s : String) : Option ℤ := do
  let (y, r1) ← parse4 s.toList
  let r2 ← match r1 with | '-' :: r => some r | _ => none
  let (mo, r3) ← parse2 r2
  let r4 ← match r3 with | '-' :: r => some r | _ => none
  let (d, r5) ← parse2 r4
  if mo < 1 ∨ 12 < mo ∨ d < 1 ∨ 31 < d then none
  else do
    let timeMs : Nat ←
      match r5 with
      | [] => some 0
      | 'T' :: r6 => do
        let (h, r7) ← parse2 r6
        let r8 ← match r7 with | ':' :: r => some r | _ => none
        let (mi, r9) ← parse2 r8
        if 24 < h ∨ 59 < mi then none
        else do
          let (sec, msec, rest) ←
            match r9 with
            | ':' :: r10 => do
              let (sec, r11) ← parse2 r10
              if 59 < sec then none
              else
                match r11 with
                | '.' :: a :: b :: c :: r12 =>
                  if a.isDigit ∧ b.isDigit ∧ c.isDigit then
                    some (sec, (a.toNat - 48) * 100 + (b.toNat - 48) * 10 + (c.toNat - 48), r12)
                  else none
                | _ => some (sec, 0, r11)
            | _ => some (0, 0, r9)
          let _ ← match rest with | [] => some 0 | ['Z'] => some 0 | _ => none
          some (h * 3600000 + mi * 60000 + sec * 1000 + msec)
      | _ => none
    msClip ((daysFromCivil y mo d * 86400000 + timeMs : ℤ) : ℚ)

/-- `new Date(v)` for the single-argument constructor: strings parse,
everything else coerces through `ToNumber` to a millisecond value. -/
def jsDateFromJson : Json → Option ℤ
  | .str s => parseJsDateString s
  | .num q => msClip q
  | .bool b => msClip (if b then 1 else 0)
  | .null => msClip 0
  | .arr xs => parseJsDateString ((Json.arr xs).jsToString)
  | .obj _ => none

-- ----------------------
-- The assembler (`transformReceipt`)
-- ----------------------

/-- `Array.from(new Set(...))`: de-duplicate keeping first occurrences
(elements already seen are skipped). -/
def dedupAux (seen : List String) : List String → List String
  | [] => []
  | s :: rest => if seen.contains s then dedupAux seen rest else s :: dedupAux (s :: seen) rest

/-- `Array.from(new Set(...))`. -/
def dedupStrings (l : List String) : List String := dedupAux [] l

/-- `opts?.schemaVersion || SCHEMA_VERSION`. -/
def resolvedSchemaVersion (opts : Option String) : String :=
  match opts with
  | some s => if s ≠ "" then s else SCHEMA_VERSION
  | none => SCHEMA_VERSION

/-- `(issuedDate, issuedTime)` as derived from `issued_at_iso` /
`issued_at`.  The epoch branch calls `toISOString` without an `isNaN`
guard, so an out-of-range `issued_at` raises a `RangeError` there. -/
def buildDateTime (payload : Json) : Except JsErr (Option (String × String)) :=
  let issuedAtEpoch : Option ℚ := numOf (payloadGet payload "issued_at")
  let issuedAtISO : Option Json := payloadGet payload "issued_at_iso"
  if jsTruthy issuedAtISO then
    .ok (match jsDateFromJson (issuedAtISO.getD .null) with
         | some ms => some (isoDate ms, isoTime ms)
         | none => none)
  else if (issuedAtEpoch.getD 0) ≠ 0 then
    match msClip ((issuedAtEpoch.getD 0) * 1000) with
    | some ms => .ok (some (isoDate ms, isoTime ms))
    | none => .error (.rangeErr "invalid time value")
  else .ok none

/-- `total_discount` hardening: `null`/`undefined` stays `null`; any
other value goes through `Number()` and is kept only when finite. -/
def buildDiscountTotal (payload : Json) : Option ℚ :=
  match payloadGet payload "total_discount" with
  | none => none
  | some .null => none
  | some v => jsToNumber v

/-- The `raw_payment_data` block: falsy yields no metadata, a truthy
string is parsed, a truthy non-string makes `raw.split` throw. -/
def buildPaymentCardMeta (payload : Json) : Except JsErr (Option PaymentCardMeta) :=
  let rawPay := payloadGet payload "raw_payment_data"
  if jsTruthy rawPay then
    match rawPay with
    | some (.str s) => pure (some (parseRawPaymentMeta s))
    | _ => .error (.typeErr "raw.split is not a function")
  else pure none

/-- Format an optional amount (`x != null ? fmtMoney(x, ccy) : undefined`). -/
def fmtOptMoney (v : Option ℚ) (ccy : Json) : Except JsErr (Option String) :=
  match v with
  | some x => (fmtMoney x ccy).map some
  | none => pure none

/-- Everything `transformReceipt` computes except the wall-clock stamp;
the model's placeholder `fetchedAtISO` is overwritten by
`transformReceipt`. -/
def transformCore (payload : Json) (opts : Option String) : Except JsErr Receipt := do
  let items ← buildItems payload
  let aggregatedItems ← aggregateItems items
  let taxDetails ← listOfJs (payloadGet payload "tax_details") "tax_details"
  let taxLines ← taxDetails.mapM buildTaxLine
  let paymentsRaw ← listOfJs (payloadGet payload "payments") "payments"
  let paymentDetails ← paymentsRaw.mapM (buildPayment payload)
  let discountTotal := buildDiscountTotal payload
  let currency : Json :=
    jsOr (payloadGet payload "currency_code")
      (jsOr ((items.head?).map (·.currency)) (.str "AUD"))
  let taxTotal : Option ℚ := (numOf (payloadGet payload "total_tax")).map round2
  let totalVal : ℚ := round2 ((numOf (payloadGet payload "total_price")).getD 0)
  let subtotalVal : Option ℚ := taxTotal.map (fun tt => round2 (totalVal - tt))
  let totalPaid : ℚ := round2 (paymentDetails.foldl (fun a p => a + p.amount) 0)
  let dateTime ← buildDateTime payload
  let address := buildAddress payload
  let returnsPolicy := buildReturns payload
  let loyaltyRaw ← listOfJs (payloadGet payload "loyalty") "loyalty"
  let loyaltyAll ← loyaltyRaw.mapM buildLoyalty1
  let loyaltyPrograms := loyaltyAll.filter loyaltyKept
  let paymentCardMeta ← buildPaymentCardMeta payload
  let totalFormatted ← fmtMoney totalVal currency
  let subtotalFormatted ← fmtOptMoney subtotalVal currency
  let taxTotalFormatted ← fmtOptMoney taxTotal currency
  let taxes ← taxLines.mapM (fun t =>
    (fmtMoney t.amount currency).map (fun s => { t with amountFormatted := s }))
  let totalPaidFormatted ← fmtMoney totalPaid currency
  pure
    { meta :=
        { schemaVersion := resolvedSchemaVersion opts
          source := "slyp"
          fetchedAtISO := ""
          rawHash := sha256Object payload }
      identities :=
        { externalReceiptId := payloadGet payload "external_id"
          orderNumber :=
            jsOrOpt (optGet (payloadGet payload "order_number_detail") "value")
              (optGet (payloadGet payload "order_number_detail") "order_number")
          receiptType := payloadGet payload "receipt_type"
          isTaxInvoice := jsTruthy (payloadGet payload "is_tax_invoice") }
      timestamps :=
        { issuedAtEpoch := numOf (payloadGet payload "issued_at")
          issuedAtISO := payloadGet payload "issued_at_iso"
          issuedDate := dateTime.map (·.1)
          issuedTime := dateTime.map (·.2)
          timezone :=
            jsOrOpt (optGet (payloadGet payload "merchant_detail") "timezone")
              (payloadGet payload "issued_at_timezone") }
      merchant :=
        { merchantName :=
            jsOrOpt (optGet (payloadGet payload "root_merchant") "trading_name")
              (optGet (payloadGet payload "issuing_merchant") "trading_name")
          storeName :=
            jsOrOpt (optGet (payloadGet payload "store") "name")
              (optGet (payloadGet payload "merchant_detail") "name")
          abn := optGet (payloadGet payload "merchant_detail") "abn"
          phone := optGet (payloadGet payload "merchant_detail") "phone_number"
          address }
      totals :=
        { currency
          total := totalVal
          totalFormatted
          subtotal := subtotalVal
          subtotalFormatted
          taxTotal
          taxTotalFormatted
          discountTotal
          itemCount :=
            some ((numOf (payloadGet payload "item_count")).getD (items.length : ℚ))
          computedItemQuantity := items.foldl (fun a i => a + i.quantity) 0
          taxes }
      items
      aggregatedItems
      payments := paymentDetails
      paymentSummary :=
        { totalPaid
          totalPaidFormatted
          methods := dedupStrings ((paymentDetails.filterMap (·.method)).filter (· ≠ "")) }
      paymentCardMeta
      returnsPolicy
      loyaltyPrograms := if loyaltyPrograms.length ≠ 0 then some loyaltyPrograms else none
      notes := none }

/-- `transformReceipt(apiReceiptData, opts?)`, with the wall clock
(`new Date().toISOString()`, feeding only `meta.fetchedAtISO`) passed as
the explicit argument `now`. -/
def transformReceipt (payload : Json) (opts : Option String) (now : String) :
    Except JsErr Receipt :=
  (transformCore payload opts).map
    (fun r => { r with meta := { r.meta with fetchedAtISO := now } })

-- ----------------------
-- Schema validation (`zReceipt.safeParse`) and integrity checks
-- ----------------------

/-- Issue for a required `z.string()` field holding a non-string. -/
def reqStrIssue (path : String) (v : Json) : List String :=
  match v with
  | .str _ => []
  | _ => [path ++ " - Expected string"]

/-- Issue for a `z.string().optional()` field. -/
def optStrIssue (path : String) (v : Option Json) : List String :=
  match v with
  | none => []
  | some (.str _) => []
  | some _ => [path ++ " - Expected string"]

/-- Issue for a `z.number().optional()` field. -/
def optNumIssue (path : String) (v : Option Json) : List String :=
  match v with
  | none => []
  | some (.num _) => []
  | some _ => [path ++ " - Expected number"]

/-- Issues for `z.number().int().nonnegative()`. -/
def intNonnegIssues (path : String) (q : ℚ) : List String :=
  (if q.den = 1 then [] else [path ++ " - Expected integer"]) ++
  (if 0 ≤ q then [] else [path ++ " - Number must be greater than or equal to 0"])

/-- Issues for `z.number().int().positive()`. -/
def intPosIssues (path : String) (q : ℚ) : List String :=
  (if q.den = 1 then [] else [path ++ " - Expected integer"]) ++
  (if 0 < q then [] else [path ++ " - Number must be greater than 0"])

/-- Per-index issue lists over an array field. -/
def enumIssues {α : Type} (base : String) (f : String → α → List String) (l : List α) :
    List String :=
  (l.enum.map (fun p => f (base ++ "." ++ toString p.1) p.2)).flatten

/-- Residual `zReceiptItem` checks (the typed embedding discharges the
purely type-level ones by construction). -/
def itemIssues (path : String) (it : ReceiptItem) : List String :=
  reqStrIssue (path ++ ".name") it.name ++
  intPosIssues (path ++ ".quantity") it.quantity ++
  reqStrIssue (path ++ ".currency") it.currency

/-- Residual `zTaxLine` checks. -/
def taxLineIssues (path : String) (t : TaxLine) : List String :=
  optStrIssue (path ++ ".title") t.title ++ optStrIssue (path ++ ".type") t.taxType

/-- Residual `zPaymentDetail` checks. -/
def paymentIssues (path : String) (p : PaymentDetail) : List String :=
  optStrIssue (path ++ ".type") p.paymentType

/-- Residual `zAddress` checks. -/
def addressIssues (path : String) (a : StoreAddress) : List String :=
  optStrIssue (path ++ ".street") a.street ++ optStrIssue (path ++ ".street2") a.street2 ++
  optStrIssue (path ++ ".suburb") a.suburb ++ optStrIssue (path ++ ".state") a.state ++
  optStrIssue (path ++ ".postcode") a.postcode ++
  optStrIssue (path ++ ".countryCode") a.countryCode

/-- Residual `zLoyalty` checks. -/
def loyaltyIssues (path : String) (l : LoyaltyProgram) : List String :=
  optStrIssue (path ++ ".program") l.program

/-- The structural issues `zReceipt.safeParse` reports on the runtime
shapes the model can hold (issue texts modelled after zod's); parsing
succeeds exactly when this list is empty. -/
def structuralIssues (r : Receipt) : List String :=
  (if r.meta.source = "slyp" then [] else ["meta.source - Invalid literal value"]) ++
  optStrIssue "identities.externalReceiptId" r.identities.externalReceiptId ++
  optStrIssue "identities.orderNumber" r.identities.orderNumber ++
  optStrIssue "identities.receiptType" r.identities.receiptType ++
  optStrIssue "timestamps.issuedAtISO" r.timestamps.issuedAtISO ++
  optStrIssue "timestamps.timezone" r.timestamps.timezone ++
  optStrIssue "merchant.merchantName" r.merchant.merchantName ++
  optStrIssue "merchant.storeName" r.merchant.storeName ++
  optStrIssue "merchant.abn" r.merchant.abn ++
  optStrIssue "merchant.phone" r.merchant.phone ++
  (match r.merchant.address with
   | some a => addressIssues "merchant.address" a
   | none => []) ++
  reqStrIssue "totals.currency" r.totals.currency ++
  (match r.totals.itemCount with
   | some q => intNonnegIssues "totals.itemCount" q
   | none => []) ++
  intNonnegIssues "totals.computedItemQuantity" r.totals.computedItemQuantity ++
  enumIssues "totals.taxes" taxLineIssues r.totals.taxes ++
  enumIssues "items" itemIssues r.items ++
  enumIssues "aggregatedItems" itemIssues r.aggregatedItems ++
  enumIssues "payments" paymentIssues r.payments ++
  (match r.returnsPolicy with
   | some rp =>
     optStrIssue "returnsPolicy.barcode" rp.barcode ++
     optNumIssue "returnsPolicy.periodDays" rp.periodDays ++
     optStrIssue "returnsPolicy.policyText" rp.policyText
   | none => []) ++
  (match r.loyaltyPrograms with
   | some ls => enumIssues "loyaltyPrograms" loyaltyIssues ls
   | none => [])

/-- `round2(receipt.items.reduce((a,i)=>a+i.lineTotal,0))`. -/
def sumLineTotalsOf (r : Receipt) : ℚ :=
  round2 (r.items.foldl (fun a i => a + i.lineTotal) 0)

/-- `round2(receipt.payments.reduce((a,p)=>a+p.amount,0))`. -/
def totalPaidOf (r : Receipt) : ℚ :=
  round2 (r.payments.foldl (fun a p => a + p.amount) 0)

/-- `round2(receipt.aggregatedItems.reduce((a,i)=>a+i.lineTotal,0))`. -/
def aggregatedSumOf (r : Receipt) : ℚ :=
  round2 (r.aggregatedItems.foldl (fun a i => a + i.lineTotal) 0)

/-- Integrity check 1: item line totals against `totals.total`. -/
def lineTotalsIssue (r : Receipt) : List String :=
  if |sumLineTotalsOf r - r.totals.total| > 1 / 100 then
    ["sum(lineTotals)=" ++ fmt2 (sumLineTotalsOf r) ++ " != total=" ++ fmt2 r.totals.total]
  else []

/-- Integrity check 2: payment amounts against `totals.total`. -/
def totalPaidIssue (r : Receipt) : List String :=
  if |totalPaidOf r - r.totals.total| > 1 / 100 then
    ["totalPaid=" ++ fmt2 (totalPaidOf r) ++ " != total=" ++ fmt2 r.totals.total]
  else []

/-- Integrity check 3: `subtotal + taxTotal` against `totals.total`,
only when both operands are present. -/
def subtotalTaxIssue (r : Receipt) : List String :=
  match r.totals.subtotal, r.totals.taxTotal with
  | some st, some tt =>
    let recombined := round2 (st + tt)
    if |recombined - r.totals.total| > 1 / 100 then
      ["subtotal + tax (" ++ fmt2 recombined ++ ") != total (" ++ fmt2 r.totals.total ++ ")"]
    else []
  | _, _ => []

/-- Integrity check 4: `itemCount` against `items.length`, only when
`itemCount` is present (the template literal prints the raw numbers). -/
def itemCountIssue (r : Receipt) : List String :=
  match r.totals.itemCount with
  | some ic =>
    if ic ≠ (r.items.length : ℚ) then
      ["itemCount=" ++ numToString ic ++ " != items.length=" ++ numToString (r.items.length : ℚ)]
    else []
  | none => []

/-- Integrity check 5: aggregated line totals against item line totals. -/
def aggregatedSumIssue (r : Receipt) : List String :=
  if |aggregatedSumOf r - sumLineTotalsOf r| > 1 / 100 then
    ["aggregatedSum=" ++ fmt2 (aggregatedSumOf r) ++ " != sumLineTotals=" ++ fmt2 (sumLineTotalsOf r)]
  else []

structure ValidationSums where
  sumLineTotals : ℚ
  aggregatedSum : ℚ
  totalPaid : ℚ
  total : ℚ
  subtotal : Option ℚ
  taxTotal : Option ℚ

structure ValidationResult where
  validationSuccess : Bool
  issues : List String
  sums : ValidationSums

/-- `validateReceipt` from `receipt.ts`: structural issues first, then
the five integrity checks appended in order. -/
def validateReceipt (r : Receipt) : ValidationResult :=
  { validationSuccess := (structuralIssues r).isEmpty
    issues :=
      structuralIssues r ++ lineTotalsIssue r ++ totalPaidIssue r ++ subtotalTaxIssue r ++
      itemCountIssue r ++ aggregatedSumIssue r
    sums :=
      { sumLineTotals := sumLineTotalsOf r
        aggregatedSum := aggregatedSumOf r
        totalPaid := totalPaidOf r
        total := r.totals.total
        subtotal := r.totals.subtotal
        taxTotal := r.totals.taxTotal } }

-- ----------------------
-- Pure per-item extraction (names for the values `buildItem` computes)
-- ----------------------

/-- `entry.product || {}` (for a non-`null` entry). -/
def rawProductOf (entry : Json) : Json := jsOr (entry.get "product") (.obj [])

/-- `product.pricing || {}`. -/
def rawPricingOf (entry : Json) : Json := jsOr ((rawProductOf entry).get "pricing") (.obj [])

/-- `typeof product.quantity_purchased === 'number' ? ... : undefined`. -/
def rawQtyOf (entry : Json) : Option ℚ :=
  numOf ((rawProductOf entry).get "quantity_purchased")

/-- `(rawQty && rawQty > 0) ? rawQty : 1`. -/
def quantityOf (entry : Json) : ℚ :=
  match rawQtyOf entry with
  | some n => if 0 < n then n else 1
  | none => 1

/-- `typeof pricing.price === 'number' ? pricing.price : 0`. -/
def rawUnitPriceOf (entry : Json) : ℚ :=
  (numOf ((rawPricingOf entry).get "price")).getD 0

/-- The per-item currency resolution
`pricing.currency_code || apiReceiptData?.currency_code || 'AUD'`. -/
def rawItemCurrency (payload entry : Json) : Json :=
  jsOr ((rawPricingOf entry).get "currency_code")
    (jsOr (payloadGet payload "currency_code") (.str "AUD"))

-- ----------------------
-- Witness scaffolding
-- ----------------------

/-- A default receipt (used only to name computed receipts totally). -/
def emptyReceipt : Receipt :=
  { meta := { schemaVersion := "", source := "", fetchedAtISO := "", rawHash := none }
    identities :=
      { externalReceiptId := none, orderNumber := none, receiptType := none, isTaxInvoice := false }
    timestamps :=
      { issuedAtEpoch := none, issuedAtISO := none, issuedDate := none, issuedTime := none,
        timezone := none }
    merchant := { merchantName := none, storeName := none, abn := none, phone := none, address := none }
    totals :=
      { currency := .str "", total := 0, totalFormatted := "", subtotal := none,
        subtotalFormatted := none, taxTotal := none, taxTotalFormatted := none,
        discountTotal := none, itemCount := none, computedItemQuantity := 0, taxes := [] }
    items := [], aggregatedItems := [], payments := []
    paymentSummary := { totalPaid := 0, totalPaidFormatted := "", methods := [] }
    paymentCardMeta := none, returnsPolicy := none, loyaltyPrograms := none, notes := none }

/-- A small well-formed payload: two basket lines sharing the identity
key and one payment carrying masked digits. -/
def witnessPayload : Json :=
  .obj [("currency_code", .str "AUD"),
        ("basket_items", .arr
          [.obj [("product", .obj [("name", .str "A"),
                                   ("pricing", .obj [("price", .num 5)]),
                                   ("quantity_purchased", .num 2)])],
           .obj [("product", .obj [("name", .str "A"),
                                   ("pricing", .obj [("price", .num 5)]),
                                   ("quantity_purchased", .num 1)])]]),
        ("total_price", .num 15),
        ("payments", .arr [.obj [("name", .str "VISA (*****659)"), ("amount", .num 15)]])]

/-- The receipt the model computes for `witnessPayload`. -/
def witnessReceipt : Receipt :=
  (transformReceipt witnessPayload none "2024-01-01T00:00:00.000Z").toOption.getD emptyReceipt

-- ----------------------
-- Aggregation: pure description of the fold (C3, C4)
-- ----------------------

/-- The string a successful `fmtMoney` returns (the default is never
reached on a success path). -/
def fmtFallback (amount : ℚ) (ccy : Json) : String :=
  (fmtMoney amount ccy).toOption.getD ""

/-- The pure value of a merge step (what `mergeAgg` computes when its
formatting call succeeds). -/
def mergePure (existing it : ReceiptItem) : ReceiptItem :=
  { existing with
    quantity := existing.quantity + it.quantity
    lineTotal := round2 (existing.lineTotal + it.lineTotal)
    lineTotalFormatted := fmtFallback (round2 (existing.lineTotal + it.lineTotal)) it.currency }

/-- The pure value of one aggregation fold step. -/
def pureAggStep (acc : List (String × ReceiptItem)) (it : ReceiptItem) :
    List (String × ReceiptItem) :=
  if acc.any (fun kv => kv.1 = aggKey it) then
    acc.map (fun kv => if kv.1 = aggKey it then (aggKey it, mergePure kv.2 it) else kv)
  else acc ++ [(aggKey it, it)]

/-- Group-by-first-occurrence description of the aggregation: one entry
per distinct joined key, in first-seen order, merging the later members
of each group into its first item. -/
def aggSpecRec : List ReceiptItem → List ReceiptItem
  | [] => []
  | it :: rest =>
    ((rest.filter (fun x => aggKey x = aggKey it)).foldl mergePure it) ::
      aggSpecRec (rest.filter (fun x => aggKey x ≠ aggKey it))
termination_by l => l.length
decreasing_by
  simp_wf
  exact Nat.lt_succ_of_le (List.length_filter_le _ _)

/-- The incremental re-rounded sum the merge loop computes over a
group's line totals. -/
def incRoundedSum : List ℚ → ℚ
  | [] => 0
  | x :: xs => xs.foldl (fun a b => round2 (a + b)) x

/-- The merge-invariant fields of an item (everything except `quantity`,
`lineTotal` and `lineTotalFormatted`). -/
def staticFields (it : ReceiptItem) :
    Json × Option String × Option String × Option String × Option String ×
      ℚ × String × Option ℚ × Option ℚ × Json :=
  (it.name, it.sku, it.apn, it.colour, it.size, it.unitPrice, it.unitPriceFormatted,
   it.discount, it.tax, it.currency)

/-- A rational that is a whole number of cents. -/
def IsCent (q : ℚ) : Prop := ∃ n : ℤ, q = (n : ℚ) / 100

-- ----------------------
-- Totality guard (C1)
-- ----------------------

/-- `v === null` (the one value property access throws on inside the
extractors' arrays). -/
def Json.isNullV : Json → Bool
  | .null => true
  | _ => false

/-- A value a string method can safely be called on after `|| ''`-style
guards: absent, falsy, or an actual string. -/
def strOrFalsy (v : Option Json) : Bool :=
  !(jsTruthy v) ||
    (match v with
     | some (.str _) => true
     | _ => false)

/-- `x || []` yields an array whose entries all satisfy `entryOk`. -/
def entriesOk (v : Option Json) (entryOk : Json → Bool) : Bool :=
  match jsOr v (.arr []) with
  | .arr xs => xs.all entryOk
  | _ => false

/-- One `item_properties` entry is harmless: its `title` is falsy or a
string. -/
def propOk (pr : Json) : Bool := strOrFalsy (optGet (some pr) "title")

/-- A `basket_items` entry the extractors degrade on gracefully. -/
def itemOk (payload e : Json) : Bool :=
  !e.isNullV &&
  wellFormedCurrency ((rawItemCurrency payload e).jsToString) &&
  entriesOk ((rawProductOf e).get "item_properties") propOk

/-- A `payments` entry the extractors degrade on gracefully. -/
def paymentOk (e : Json) : Bool :=
  !e.isNullV && strOrFalsy (e.get "name") && strOrFalsy (e.get "payment_method_type")

/-- The `issued_at` branch cannot raise: an ISO string wins, or the
epoch is zero, or the scaled epoch is a representable time value. -/
def dateOk (p : Json) : Bool :=
  jsTruthy (payloadGet p "issued_at_iso") ||
  decide ((numOf (payloadGet p "issued_at")).getD 0 = 0) ||
  decide (|((numOf (payloadGet p "issued_at")).getD 0) * 1000| ≤ 8640000000000000)

/-- A decidable payload guard under which the transform cannot throw:
no `null` entries in the four mapped arrays, string-or-falsy values
wherever a string method is called, a well-formed currency code when
one is given, and an in-range `issued_at`. -/
def GoodShape (p : Json) : Bool :=
  (rawBasketItems p).all (itemOk p) &&
  wellFormedCurrency ((jsOr (payloadGet p "currency_code") (.str "AUD")).jsToString) &&
  entriesOk (payloadGet p "tax_details") (fun t => !t.isNullV) &&
  entriesOk (payloadGet p "payments") paymentOk &&
  entriesOk (payloadGet p "loyalty") (fun l => !l.isNullV) &&
  dateOk p &&
  strOrFalsy (payloadGet p "raw_payment_data")

-- ----------------------
-- Masked-card regex characterization (C8)
-- ----------------------

/-- Some digit run of length at least two is immediately preceded by an
asterisk (the satisfiability condition of `/\*+(\d{2,4})/`). -/
def hasAdjacentRun (cs : List Char) : Prop :=
  ∃ a d₁ d₂ b, cs = a ++ '*' :: d₁ :: d₂ :: b ∧ d₁.isDigit = true ∧ d₂.isDigit = true

/-- A payload whose only basket line has `quantity_purchased: 0.5`. -/
def fractionalQtyPayload : Json :=
  .obj [("basket_items", .arr
    [.obj [("product", .obj [("quantity_purchased", .num (1 / 2))])]])]

/-- The receipt the model computes for `fractionalQtyPayload`. -/
def fractionalQtyReceipt : Receipt :=
  (transformReceipt fractionalQtyPayload none "t").toOption.getD emptyReceipt

/-- A second clock value for the determinism witness. -/
def witnessReceipt2 : Receipt :=
  (transformReceipt witnessPayload none "2025-06-30T12:00:00.000Z").toOption.getD emptyReceipt

/-- A payment whose descriptor has a space between the asterisks and the
digits, exactly the spec's example `"VISA (**** 1234)"`. -/
def spacedCardPayload : Json :=
  .obj [("payments", .arr [.obj [("name", .str "VISA (**** 1234)"), ("amount", .num 1)]])]

/-- The payment entry of `witnessPayload` (real upstream shape, no space
inside the masked group). -/
def witnessPaymentJson : Json :=
  .obj [("name", .str "VISA (*****659)"), ("amount", .num 15)]

/-- The payment detail the model computes for `witnessPaymentJson`. -/
def witnessPaymentDetail : PaymentDetail :=
  (buildPayment witnessPayload witnessPaymentJson).toOption.getD
    { method := none, maskedCard := none, amount := 0, amountFormatted := "",
      rawName := "", paymentType := none }

/-- A small structurally valid receipt line. -/
def tamperItem : ReceiptItem :=
  { name := .str "A", sku := none, apn := none, colour := none, size := none,
    unitPrice := 15, unitPriceFormatted := "", quantity := 1, lineTotal := 15,
    lineTotalFormatted := "", discount := none, tax := none, currency := .str "AUD" }

/-- A structurally valid receipt whose grand total was tampered with:
the line totals sum to `15` against a stated total of `20`. -/
def tamperedWitnessReceipt : Receipt :=
  { emptyReceipt with
    meta := { emptyReceipt.meta with source := "slyp" }
    totals := { emptyReceipt.totals with total := 20 }
    items := [tamperItem]
    aggregatedItems := [tamperItem] }

/-- A payload whose `basket_items` array contains a `null` entry: the
item mapper's `entry.product` access throws a `TypeError` on it. -/
def nullBasketPayload : Json := .obj [("basket_items", .arr [.null])]

/-- Two basket lines whose identity tuples differ (`name "a|b"`/`sku
"c"` versus `name "a"`/`sku "b|c"`) but whose joined key strings are
both `"a|b|c|||1|AUD"`. -/
def collisionPayload : Json :=
  .obj [("basket_items", .arr
    [.obj [("product", .obj
       [("name", .str "a|b"),
        ("pricing", .obj [("price", .num 1)]),
        ("item_properties", .arr [.obj [("title", .str "SKU: c")]])])],
     .obj [("product", .obj
       [("name", .str "a"),
        ("pricing", .obj [("price", .num 1)]),
        ("item_properties", .arr [.obj [("title", .str "SKU: b|c")]])])]])]

/-- `Rat.floor` agrees with the `FloorRing` floor (the former reduces in
the kernel, the latter carries the lemma library). -/
theorem ratFloor_eq_intFloor (q : ℚ) : Rat.floor q = ⌊q⌋ := by
  rw [Rat.floor_def', Rat.floor_def]

theorem cents_intCast_div (n : ℤ) : cents ((n : ℚ) / 100) = n := by
  have h0 : (⌊(1 / 2 : ℚ)⌋ : ℤ) = 0 := by norm_num [Int.floor_eq_iff]
  unfold cents
  rw [ratFloor_eq_intFloor, ratFloor_eq_intFloor]
  split
  next h =>
    have he : ((-((n : ℚ) / 100)) * 100 + 1 / 2 : ℚ) = ((-n : ℤ) : ℚ) + 1 / 2 := by
      push_cast; ring
    rw [he, Int.floor_int_add, h0]
    omega
  next h =>
    have he : ((((n : ℚ) / 100)) * 100 + 1 / 2 : ℚ) = ((n : ℤ) : ℚ) + 1 / 2 := by
      ring
    rw [he, Int.floor_int_add, h0]
    omega

/-- `round2` is the identity on whole-cent amounts. -/
theorem round2_intCast_div (n : ℤ) : round2 ((n : ℚ) / 100) = (n : ℚ) / 100 := by
  unfold round2
  rw [cents_intCast_div]

/-- Every output of `round2` is a whole number of cents. -/
theorem round2_eq_cents_div (q : ℚ) : round2 q = (cents q : ℚ) / 100 := rfl

/-- `round2` is idempotent. -/
theorem round2_round2 (q : ℚ) : round2 (round2 q) = round2 q := by
  show round2 ((cents q : ℚ) / 100) = round2 q
  rw [round2_intCast_div]
  rfl

-- ----------------------
-- Monadic decomposition lemmas
-- ----------------------

theorem except_bind_ok_iff {ε α β : Type} (m : Except ε α) (f : α → Except ε β) (b : β) :
    (m >>= f) = .ok b ↔ ∃ a, m = .ok a ∧ f a = .ok b := by
  cases m <;> simp [Bind.bind, Except.bind]

theorem except_pure_ok_iff {ε α : Type} (a b : α) :
    (pure a : Except ε α) = .ok b ↔ a = b := by
  constructor
  · intro h
    cases h
    rfl
  · intro h
    cases h
    rfl

theorem except_map_ok_iff {ε α β : Type} (m : Except ε α) (f : α → β) (b : β) :
    (Except.map f m) = .ok b ↔ ∃ a, m = .ok a ∧ f a = b := by
  cases m <;> simp [Except.map]

/-- `mapM` over `Except` succeeds exactly pointwise. -/
theorem mapM_ok_forall₂ {ε α β : Type} {f : α → Except ε β} :
    ∀ {xs : List α} {ys : List β}, xs.mapM f = .ok ys →
      List.Forall₂ (fun x y => f x = .ok y) xs ys := by
  intro xs
  induction xs with
  | nil =>
    intro ys h
    rw [List.mapM_nil, except_pure_ok_iff] at h
    cases h
    exact .nil
  | cons x xs ih =>
    intro ys h
    rw [List.mapM_cons, except_bind_ok_iff] at h
    obtain ⟨y, hy, h⟩ := h
    rw [except_bind_ok_iff] at h
    obtain ⟨ys', hys, h⟩ := h
    rw [except_pure_ok_iff] at h
    cases h
    exact .cons hy (ih hys)

/-- Totality of `mapM` over `Except` from pointwise totality. -/
theorem mapM_ok_of_forall {ε α β : Type} {f : α → Except ε β} :
    ∀ {xs : List α}, (∀ x ∈ xs, ∃ y, f x = .ok y) → ∃ ys, xs.mapM f = .ok ys := by
  intro xs
  induction xs with
  | nil => intro _; exact ⟨[], by rw [List.mapM_nil]; rfl⟩
  | cons x xs ih =>
    intro h
    obtain ⟨y, hy⟩ := h x (by simp)
    obtain ⟨ys, hys⟩ := ih (fun z hz => h z (by simp [hz]))
    refine ⟨y :: ys, ?_⟩
    rw [List.mapM_cons, except_bind_ok_iff]
    refine ⟨y, hy, ?_⟩
    rw [except_bind_ok_iff]
    exact ⟨ys, hys, rfl⟩

/-- Totality of `foldlM` over `Except` from stepwise totality. -/
theorem foldlM_ok_of_forall {ε α β : Type} {f : β → α → Except ε β} :
    ∀ {xs : List α} {b : β}, (∀ b' x, x ∈ xs → ∃ c, f b' x = .ok c) →
      ∃ c, xs.foldlM f b = .ok c := by
  intro xs
  induction xs with
  | nil => intro b _; exact ⟨b, rfl⟩
  | cons x xs ih =>
    intro b h
    obtain ⟨c, hc⟩ := h b x (by simp)
    obtain ⟨d, hd⟩ := ih (b := c) (fun b' z hz => h b' z (by simp [hz]))
    refine ⟨d, ?_⟩
    rw [List.foldlM_cons, hc]
    exact hd

/-- The shape of a successful `transformCore`: the fallible components
succeeded and every `Receipt` field the claims examine is determined by
them. -/
theorem transformCore_ok_decomp {p : Json} {o : Option String} {r : Receipt}
    (h : transformCore p o = .ok r) :
    ∃ items aggItems,
      buildItems p = .ok items ∧
      aggregateItems items = .ok aggItems ∧
      r.items = items ∧
      r.aggregatedItems = aggItems ∧
      r.totals.total = round2 ((numOf (payloadGet p "total_price")).getD 0) ∧
      r.totals.currency =
        jsOr (payloadGet p "currency_code")
          (jsOr ((items.head?).map (·.currency)) (.str "AUD")) := by
  unfold transformCore at h
  rw [except_bind_ok_iff] at h
  obtain ⟨items, hitems, h⟩ := h
  rw [except_bind_ok_iff] at h
  obtain ⟨aggItems, hagg, h⟩ := h
  rw [except_bind_ok_iff] at h
  obtain ⟨taxDetails, htd, h⟩ := h
  rw [except_bind_ok_iff] at h
  obtain ⟨taxLines, htl, h⟩ := h
  rw [except_bind_ok_iff] at h
  obtain ⟨paysRaw, hpr, h⟩ := h
  rw [except_bind_ok_iff] at h
  obtain ⟨pays, hpays, h⟩ := h
  rw [except_bind_ok_iff] at h
  obtain ⟨dateTime, hdt, h⟩ := h
  rw [except_bind_ok_iff] at h
  obtain ⟨loyRaw, hlr, h⟩ := h
  rw [except_bind_ok_iff] at h
  obtain ⟨loyAll, hla, h⟩ := h
  rw [except_bind_ok_iff] at h
  obtain ⟨pcm, hpcm, h⟩ := h
  rw [except_bind_ok_iff] at h
  obtain ⟨totalFormatted, htf, h⟩ := h
  rw [except_bind_ok_iff] at h
  obtain ⟨subtotalFormatted, hsf, h⟩ := h
  rw [except_bind_ok_iff] at h
  obtain ⟨taxTotalFormatted, httf, h⟩ := h
  rw [except_bind_ok_iff] at h
  obtain ⟨taxes, htaxes, h⟩ := h
  rw [except_bind_ok_iff] at h
  obtain ⟨totalPaidFormatted, htpf, h⟩ := h
  rw [except_pure_ok_iff] at h
  subst h
  exact ⟨items, aggItems, hitems, hagg, rfl, rfl, rfl, rfl⟩

/-- Same decomposition through `transformReceipt` (the clock stamp
touches no other field). -/
theorem transformReceipt_ok_decomp {p : Json} {o : Option String} {now : String} {r : Receipt}
    (h : transformReceipt p o now = .ok r) :
    ∃ items aggItems,
      buildItems p = .ok items ∧
      aggregateItems items = .ok aggItems ∧
      r.items = items ∧
      r.aggregatedItems = aggItems ∧
      r.totals.total = round2 ((numOf (payloadGet p "total_price")).getD 0) ∧
      r.totals.currency =
        jsOr (payloadGet p "currency_code")
          (jsOr ((items.head?).map (·.currency)) (.str "AUD")) := by
  unfold transformReceipt at h
  rw [except_map_ok_iff] at h
  obtain ⟨r₀, hcore, hr⟩ := h
  obtain ⟨items, aggItems, h1, h2, h3, h4, h5, h6⟩ := transformCore_ok_decomp hcore
  subst hr
  exact ⟨items, aggItems, h1, h2, h3, h4, h5, h6⟩

theorem access_some_ok_iff (v : Json) (f : String) (a : Option Json) :
    access (some v) f = .ok a ↔ v ≠ .null ∧ a = v.get f := by
  cases v <;> simp [access, Json.get, eq_comm]

/-- The shape of a successful `buildItem`: every field the claims
examine is the corresponding pure extraction. -/
theorem buildItem_ok_decomp {payload entry : Json} {it : ReceiptItem}
    (h : buildItem payload entry = .ok it) :
    entry ≠ .null ∧
    it.quantity = quantityOf entry ∧
    it.unitPrice = round2 (rawUnitPriceOf entry) ∧
    it.lineTotal = round2 (it.unitPrice * it.quantity) ∧
    it.currency = rawItemCurrency payload entry := by
  unfold buildItem at h
  rw [except_bind_ok_iff] at h
  obtain ⟨productOpt, hpo, h⟩ := h
  rw [access_some_ok_iff] at hpo
  obtain ⟨hnn, hpv⟩ := hpo
  subst hpv
  rw [except_bind_ok_iff] at h
  obtain ⟨upf, hupf, h⟩ := h
  rw [except_bind_ok_iff] at h
  obtain ⟨ltf, hltf, h⟩ := h
  rw [except_bind_ok_iff] at h
  obtain ⟨itemProps, hip, h⟩ := h
  rw [except_bind_ok_iff] at h
  obtain ⟨propMap, hpm, h⟩ := h
  simp only [Except.ok.injEq] at h
  subst h
  exact ⟨hnn, rfl, rfl, rfl, rfl⟩

theorem round2_zero : round2 0 = 0 := by
  have h := round2_intCast_div 0
  simpa using h

theorem quantityOf_pos (entry : Json) : 0 < quantityOf entry := by
  unfold quantityOf
  cases rawQtyOf entry with
  | none => norm_num
  | some n =>
    by_cases hn : 0 < n
    · simp [hn]
    · simp [hn]

/-- Pointwise facts about `r.items` from a successful transform. -/
theorem transform_items_forall₂ {p : Json} {o : Option String} {now : String} {r : Receipt}
    (h : transformReceipt p o now = .ok r) :
    List.Forall₂ (fun e it => buildItem p e = .ok it) (rawBasketItems p) r.items := by
  obtain ⟨items, agg, h1, _, h3, _, _, _⟩ := transformReceipt_ok_decomp h
  rw [h3]
  exact mapM_ok_forall₂ h1

theorem forall₂_mem_right {α β : Type} {R : α → β → Prop} :
    ∀ {l₁ : List α} {l₂ : List β}, List.Forall₂ R l₁ l₂ → ∀ b ∈ l₂, ∃ a, R a b := by
  intro l₁ l₂ h
  induction h with
  | nil => intro b hb; cases hb
  | cons hR _ ih =>
    intro b hb
    rcases List.mem_cons.mp hb with hb | hb
    · exact ⟨_, hb ▸ hR⟩
    · exact ih b hb

-- ----------------------
-- Claim theorems
-- ----------------------

/-- C9: `totals.total` is always present; it is `total_price` rounded to
two decimals when that field is a number, and `0` (the rounding of the
default) when it is missing or not a number. -/
theorem total_from_total_price (p : Json) (o : Option String) (now : String) (r : Receipt)
    (h : transformReceipt p o now = .ok r) :
    (∀ q, numOf (payloadGet p "total_price") = some q → r.totals.total = round2 q) ∧
    (numOf (payloadGet p "total_price") = none → r.totals.total = 0) := by
  obtain ⟨items, agg, _, _, _, _, h5, _⟩ := transformReceipt_ok_decomp h
  constructor
  · intro q hq
    rw [h5, hq]
    rfl
  · intro hn
    rw [h5, hn]
    exact round2_zero

section

set_option maxHeartbeats 1000000

attribute [local semireducible] Rat.mul Rat.add Rat.sub Rat.inv Rat.ofScientific

/-- C9 witness. -/
theorem total_from_total_price_witness :
    transformReceipt witnessPayload none "2024-01-01T00:00:00.000Z" = .ok witnessReceipt ∧
    numOf (payloadGet witnessPayload "total_price") = some 15 ∧
    witnessReceipt.totals.total = round2 15 := by
  have hok : transformReceipt witnessPayload none "2024-01-01T00:00:00.000Z" = .ok witnessReceipt := by
    rfl
  have hnum : numOf (payloadGet witnessPayload "total_price") = some 15 := by rfl
  exact ⟨hok, hnum,
    (total_from_total_price witnessPayload none "2024-01-01T00:00:00.000Z" witnessReceipt hok).1
      15 hnum⟩

end

/-- C10: the receipt-level currency takes the payload-level code when
truthy, else the first item's already-resolved currency, else `"AUD"`;
the per-item resolution instead prefers the item-level code. -/
theorem receipt_currency_resolution (p : Json) (o : Option String) (now : String) (r : Receipt)
    (h : transformReceipt p o now = .ok r) :
    r.totals.currency =
      jsOr (payloadGet p "currency_code")
        (jsOr ((r.items.head?).map (·.currency)) (.str "AUD")) ∧
    List.Forall₂ (fun e it => it.currency = rawItemCurrency p e) (rawBasketItems p) r.items := by
  obtain ⟨items, agg, h1, _, h3, _, _, h6⟩ := transformReceipt_ok_decomp h
  constructor
  · rw [h3, h6]
  · rw [h3]
    exact (mapM_ok_forall₂ h1).imp (fun _ _ hok => (buildItem_ok_decomp hok).2.2.2.2)

/-- C2 (amended): the assembled quantity is always strictly positive; a
missing, non-numeric, zero or negative `quantity_purchased` is coerced
to exactly `1`, and a positive numeric one is passed through (so a
fractional value in `(0, 1)` survives and `quantity ≥ 1` fails). -/
theorem quantity_positive_and_coercion (p : Json) (o : Option String) (now : String) (r : Receipt)
    (h : transformReceipt p o now = .ok r) :
    (∀ it ∈ r.items, 0 < it.quantity) ∧
    List.Forall₂ (fun e it => it.quantity = quantityOf e) (rawBasketItems p) r.items := by
  have hfa : List.Forall₂ (fun e it => it.quantity = quantityOf e) (rawBasketItems p) r.items := by
    obtain ⟨items, agg, h1, _, h3, _, _, _⟩ := transformReceipt_ok_decomp h
    rw [h3]
    exact (mapM_ok_forall₂ h1).imp (fun _ _ hok => (buildItem_ok_decomp hok).2.1)
  refine ⟨?_, hfa⟩
  intro it hit
  obtain ⟨e, he⟩ := forall₂_mem_right hfa it hit
  rw [he]
  exact quantityOf_pos e

/-- C7: `unitPrice` is the upstream price rounded to two decimals (`0`
when missing or non-numeric), and `lineTotal` is the product of the
already-rounded `unitPrice` with the quantity, rounded again. -/
theorem unitPrice_lineTotal_rounding (p : Json) (o : Option String) (now : String) (r : Receipt)
    (h : transformReceipt p o now = .ok r) :
    List.Forall₂
      (fun e it =>
        it.unitPrice = round2 (rawUnitPriceOf e) ∧
        it.lineTotal = round2 (it.unitPrice * it.quantity))
      (rawBasketItems p) r.items := by
  obtain ⟨items, agg, h1, _, h3, _, _, _⟩ := transformReceipt_ok_decomp h
  rw [h3]
  exact (mapM_ok_forall₂ h1).imp
    (fun _ _ hok => ⟨(buildItem_ok_decomp hok).2.2.1, (buildItem_ok_decomp hok).2.2.2.1⟩)

/-- C6: for a fixed payload and `schemaVersion` option, two calls agree
on every field except `meta.fetchedAtISO`; in particular the raw hash,
the aggregated-item order and the payment-method order coincide. -/
theorem transform_deterministic_except_fetchedAt (p : Json) (o : Option String)
    (t1 t2 : String) (r1 r2 : Receipt)
    (h1 : transformReceipt p o t1 = .ok r1) (h2 : transformReceipt p o t2 = .ok r2) :
    r1 = { r2 with meta := { r2.meta with fetchedAtISO := t1 } } ∧
    r1.meta.rawHash = r2.meta.rawHash ∧
    r1.aggregatedItems = r2.aggregatedItems ∧
    r1.paymentSummary.methods = r2.paymentSummary.methods := by
  unfold transformReceipt at h1 h2
  rw [except_map_ok_iff] at h1 h2
  obtain ⟨c1, hc1, hr1⟩ := h1
  obtain ⟨c2, hc2, hr2⟩ := h2
  rw [hc1] at hc2
  injection hc2 with hc
  subst hc
  subst hr1
  subst hr2
  exact ⟨rfl, rfl, rfl, rfl⟩

theorem mergeAgg_ok {e it m : ReceiptItem} (h : mergeAgg e it = .ok m) :
    m = mergePure e it := by
  unfold mergeAgg at h
  rw [except_bind_ok_iff] at h
  obtain ⟨fmtd, hf, h⟩ := h
  rw [Except.ok.injEq] at h
  subst h
  unfold mergePure fmtFallback
  rw [hf]
  rfl

theorem mapM_ok_eq_map {ε α β : Type} {f : α → Except ε β} {g : α → β}
    (hg : ∀ x y, f x = .ok y → y = g x) :
    ∀ {xs : List α} {ys : List β}, xs.mapM f = .ok ys → ys = xs.map g := by
  intro xs ys h
  have hfa := mapM_ok_forall₂ h
  clear h
  induction hfa with
  | nil => rfl
  | cons hR _ ih => rw [List.map_cons, ← ih, ← hg _ _ hR]

theorem aggStep_ok {acc acc' : List (String × ReceiptItem)} {it : ReceiptItem}
    (h : aggStep acc it = .ok acc') : acc' = pureAggStep acc it := by
  unfold aggStep at h
  unfold pureAggStep
  by_cases hany : acc.any (fun kv => kv.1 = aggKey it)
  · rw [if_pos hany] at h
    rw [if_pos hany]
    refine mapM_ok_eq_map ?_ h
    intro kv y hy
    by_cases hk : kv.1 = aggKey it
    · rw [if_pos hk] at hy ⊢
      rw [except_bind_ok_iff] at hy
      obtain ⟨m, hm, hy⟩ := hy
      rw [except_pure_ok_iff] at hy
      rw [← hy, mergeAgg_ok hm]
    · rw [if_neg hk] at hy ⊢
      rw [except_pure_ok_iff] at hy
      exact hy.symm
  · rw [if_neg hany] at h
    rw [if_neg hany]
    rw [Except.ok.injEq] at h
    exact h.symm

theorem foldlM_aggStep_ok :
    ∀ {items : List ReceiptItem} {acc m : List (String × ReceiptItem)},
      items.foldlM aggStep acc = .ok m → m = items.foldl pureAggStep acc := by
  intro items
  induction items with
  | nil =>
    intro acc m h
    rw [List.foldlM_nil, except_pure_ok_iff] at h
    exact h.symm
  | cons it rest ih =>
    intro acc m h
    rw [List.foldlM_cons, except_bind_ok_iff] at h
    obtain ⟨acc', hstep, h⟩ := h
    rw [List.foldl_cons, ← aggStep_ok hstep]
    exact ih h

theorem aggregateItems_ok {items l : List ReceiptItem}
    (h : aggregateItems items = .ok l) :
    l = (items.foldl pureAggStep []).map (·.2) := by
  unfold aggregateItems at h
  rw [except_bind_ok_iff] at h
  obtain ⟨m, hm, h⟩ := h
  rw [Except.ok.injEq] at h
  rw [← h, foldlM_aggStep_ok hm]

theorem map_noop {α : Type} (f : α → α) (l : List α) (h : ∀ a ∈ l, f a = a) :
    l.map f = l := by
  induction l with
  | nil => rfl
  | cons x t ih =>
    rw [List.map_cons, h x (by simp), ih (fun a ha => h a (by simp [ha]))]

theorem pureAggStep_cons_ne {k : String} {e : ReceiptItem} {acc : List (String × ReceiptItem)}
    {it : ReceiptItem} (hk : aggKey it ≠ k) :
    pureAggStep ((k, e) :: acc) it = (k, e) :: pureAggStep acc it := by
  have hne : ¬ ((k, e).1 = aggKey it) := fun hh => hk (by simpa using hh.symm)
  unfold pureAggStep
  by_cases hany : acc.any (fun kv => kv.1 = aggKey it) = true
  · have hany2 : (((k, e) :: acc).any (fun kv => kv.1 = aggKey it)) = true := by
      simp only [List.any_cons, hany, Bool.or_true]
    rw [if_pos hany2, if_pos hany, List.map_cons, if_neg hne]
  · have hany' : acc.any (fun kv => kv.1 = aggKey it) = false := by
      simp only [Bool.not_eq_true] at hany
      exact hany
    have hany2 : (((k, e) :: acc).any (fun kv => kv.1 = aggKey it)) = false := by
      rw [List.any_cons, Bool.or_eq_false_iff]
      exact ⟨decide_eq_false hne, hany'⟩
    rw [if_neg (by simp [hany2]), if_neg (by simp [hany'])]
    rfl

theorem pureAggStep_cons_eq {k : String} {e : ReceiptItem} {acc : List (String × ReceiptItem)}
    {it : ReceiptItem} (hkey : aggKey it = k) (hk : k ∉ acc.map (·.1)) :
    pureAggStep ((k, e) :: acc) it = (k, mergePure e it) :: acc := by
  unfold pureAggStep
  have hany : (((k, e) :: acc).any (fun kv => kv.1 = aggKey it)) = true := by
    simp [List.any_cons, hkey]
  rw [if_pos hany, List.map_cons, if_pos (by simp [hkey])]
  rw [hkey]
  congr 1
  apply map_noop
  intro kv hkv
  rw [if_neg]
  intro hkv1
  exact hk (hkv1 ▸ List.mem_map.mpr ⟨kv, hkv, rfl⟩)

theorem pureAggStep_keys_ne {acc : List (String × ReceiptItem)} {it : ReceiptItem}
    {k : String} (hk : k ∉ acc.map (·.1)) (hkey : aggKey it ≠ k) :
    k ∉ (pureAggStep acc it).map (·.1) := by
  unfold pureAggStep
  split
  · rw [List.map_map]
    intro hmem
    obtain ⟨kv, hkv, hkeq⟩ := List.mem_map.mp hmem
    simp only [Function.comp] at hkeq
    by_cases h1 : kv.1 = aggKey it
    · rw [if_pos h1] at hkeq
      exact hkey (by simpa using hkeq)
    · rw [if_neg h1] at hkeq
      exact hk (hkeq ▸ List.mem_map_of_mem _ hkv)
  · rw [List.map_append]
    intro hmem
    rcases List.mem_append.mp hmem with hmem | hmem
    · exact hk hmem
    · simp at hmem
      exact hkey hmem.symm

theorem foldl_pureAggStep_split :
    ∀ (items : List ReceiptItem) (k : String) (e : ReceiptItem)
      (acc : List (String × ReceiptItem)), k ∉ acc.map (·.1) →
      items.foldl pureAggStep ((k, e) :: acc) =
        (k, (items.filter (fun x => aggKey x = k)).foldl mergePure e) ::
          (items.filter (fun x => aggKey x ≠ k)).foldl pureAggStep acc := by
  intro items
  induction items with
  | nil => intro k e acc _; rfl
  | cons it rest ih =>
    intro k e acc hk
    rw [List.foldl_cons]
    by_cases hkey : aggKey it = k
    · rw [pureAggStep_cons_eq hkey hk, ih k (mergePure e it) acc hk]
      rw [List.filter_cons_of_pos (by simpa using hkey),
          List.filter_cons_of_neg (by simpa using hkey)]
      rfl
    · rw [pureAggStep_cons_ne hkey, ih k e (pureAggStep acc it) (pureAggStep_keys_ne hk hkey)]
      rw [List.filter_cons_of_neg (by simpa using hkey),
          List.filter_cons_of_pos (by simpa using hkey)]
      rfl

theorem pureAgg_eq_aggSpecRec_aux :
    ∀ (n : Nat) (items : List ReceiptItem), items.length = n →
      (items.foldl pureAggStep []).map (·.2) = aggSpecRec items := by
  intro n
  induction n using Nat.strong_induction_on with
  | _ n ih =>
    intro items hn
    match items with
    | [] => rw [aggSpecRec]; rfl
    | it :: rest =>
      rw [List.foldl_cons]
      have hstep : pureAggStep [] it = [(aggKey it, it)] := rfl
      rw [hstep, foldl_pureAggStep_split rest (aggKey it) it [] (by simp)]
      rw [List.map_cons]
      rw [aggSpecRec]
      congr 1
      have hlen : (rest.filter (fun x => aggKey x ≠ aggKey it)).length < n := by
        have := List.length_filter_le (fun x => decide (aggKey x ≠ aggKey it)) rest
        simp only [List.length_cons] at hn
        omega
      exact ih _ hlen _ rfl

theorem pureAgg_eq_aggSpecRec (items : List ReceiptItem) :
    (items.foldl pureAggStep []).map (·.2) = aggSpecRec items :=
  pureAgg_eq_aggSpecRec_aux items.length items rfl

theorem aggKey_mergePure (e x : ReceiptItem) : aggKey (mergePure e x) = aggKey e := rfl

theorem aggKey_foldl_mergePure :
    ∀ (g : List ReceiptItem) (e : ReceiptItem), aggKey (g.foldl mergePure e) = aggKey e := by
  intro g
  induction g with
  | nil => intro e; rfl
  | cons x t ih => intro e; rw [List.foldl_cons, ih, aggKey_mergePure]

theorem map_aggKey_filter (p : String → Bool) :
    ∀ (l : List ReceiptItem),
      (l.filter (fun x => p (aggKey x))).map aggKey = (l.map aggKey).filter p := by
  intro l
  induction l with
  | nil => rfl
  | cons x t ih =>
    by_cases hp : p (aggKey x)
    · simp [List.filter_cons, hp, ih]
    · simp [List.filter_cons, hp, ih]

theorem dedupAux_congr :
    ∀ (l : List String) (s₁ s₂ : List String),
      (∀ x, s₁.contains x = s₂.contains x) → dedupAux s₁ l = dedupAux s₂ l := by
  intro l
  induction l with
  | nil => intro s₁ s₂ _; rfl
  | cons x t ih =>
    intro s₁ s₂ hc
    simp only [dedupAux]
    rw [hc x]
    by_cases hx : s₂.contains x = true
    · rw [if_pos hx, if_pos hx]
      exact ih s₁ s₂ hc
    · rw [if_neg hx, if_neg hx]
      congr 1
      apply ih
      intro y
      simp only [List.contains_cons, hc y]

theorem dedupAux_cons_seen :
    ∀ (l : List String) (seen : List String) (s : String),
      dedupAux (s :: seen) l = dedupAux seen (l.filter (fun x => x ≠ s)) := by
  intro l
  induction l with
  | nil => intro seen s; rfl
  | cons x t ih =>
    intro seen s
    by_cases hx : x = s
    · subst hx
      rw [List.filter_cons_of_neg (by simp)]
      simp only [dedupAux]
      rw [if_pos (by simp [List.contains_cons])]
      exact ih seen x
    · rw [List.filter_cons_of_pos (by simp [hx])]
      simp only [dedupAux]
      have hcc : ((s :: seen).contains x) = (seen.contains x) := by
        simp [List.contains_cons, hx]
      rw [hcc]
      by_cases hseen : seen.contains x = true
      · rw [if_pos hseen, if_pos hseen]
        exact ih seen s
      · rw [if_neg hseen, if_neg hseen]
        congr 1
        calc dedupAux (x :: s :: seen) t
            = dedupAux (s :: x :: seen) t :=
              dedupAux_congr t _ _ (fun y => by
                simp [List.contains_cons, Bool.or_left_comm])
          _ = dedupAux (x :: seen) (t.filter (fun z => z ≠ s)) := ih (x :: seen) s

theorem aggSpecRec_keys_aux :
    ∀ (n : Nat) (items : List ReceiptItem), items.length = n →
      (aggSpecRec items).map aggKey = dedupStrings (items.map aggKey) := by
  intro n
  induction n using Nat.strong_induction_on with
  | _ n ih =>
    intro items hn
    match items with
    | [] => rw [aggSpecRec]; rfl
    | it :: rest =>
      rw [aggSpecRec, List.map_cons, aggKey_foldl_mergePure, List.map_cons]
      have hlen : (rest.filter (fun x => aggKey x ≠ aggKey it)).length < n := by
        have := List.length_filter_le (fun x => decide (aggKey x ≠ aggKey it)) rest
        simp only [List.length_cons] at hn
        omega
      rw [ih _ hlen _ rfl]
      unfold dedupStrings
      simp only [dedupAux]
      rw [if_neg (by simp)]
      congr 1
      rw [dedupAux_cons_seen (rest.map aggKey) [] (aggKey it)]
      congr 1
      exact map_aggKey_filter (fun s => s ≠ aggKey it) rest

theorem aggSpecRec_keys (items : List ReceiptItem) :
    (aggSpecRec items).map aggKey = dedupStrings (items.map aggKey) :=
  aggSpecRec_keys_aux items.length items rfl

theorem aggSpecRec_mem_key_aux :
    ∀ (n : Nat) (items : List ReceiptItem), items.length = n →
      ∀ e ∈ aggSpecRec items, ∃ x ∈ items, aggKey x = aggKey e := by
  intro n
  induction n using Nat.strong_induction_on with
  | _ n ih =>
    intro items hn
    match items with
    | [] => intro e he; rw [aggSpecRec] at he; cases he
    | it :: rest =>
      intro e he
      rw [aggSpecRec] at he
      rcases List.mem_cons.mp he with he | he
      · refine ⟨it, by simp, ?_⟩
        rw [he, aggKey_foldl_mergePure]
      · have hlen : (rest.filter (fun x => aggKey x ≠ aggKey it)).length < n := by
          have := List.length_filter_le (fun x => decide (aggKey x ≠ aggKey it)) rest
          simp only [List.length_cons] at hn
          omega
        obtain ⟨x, hx, hxk⟩ := ih _ hlen _ rfl e he
        exact ⟨x, by simp [List.mem_of_mem_filter hx], hxk⟩

theorem aggSpecRec_mem_aux :
    ∀ (n : Nat) (items : List ReceiptItem), items.length = n →
      ∀ e ∈ aggSpecRec items,
        ∃ first rest', items.filter (fun x => aggKey x = aggKey e) = first :: rest' ∧
          e = rest'.foldl mergePure first := by
  intro n
  induction n using Nat.strong_induction_on with
  | _ n ih =>
    intro items hn
    match items with
    | [] => intro e he; rw [aggSpecRec] at he; cases he
    | it :: rest =>
      intro e he
      rw [aggSpecRec] at he
      rcases List.mem_cons.mp he with he | he
      · have hkey : aggKey e = aggKey it := by rw [he, aggKey_foldl_mergePure]
        refine ⟨it, rest.filter (fun x => aggKey x = aggKey e), ?_, ?_⟩
        · rw [List.filter_cons_of_pos (by simp [hkey])]
        · have hfilt : rest.filter (fun x => aggKey x = aggKey e) =
              rest.filter (fun x => aggKey x = aggKey it) :=
            List.filter_congr (fun x _ => by simp [hkey])
          rw [hfilt]
          exact he
      · have hlen : (rest.filter (fun x => aggKey x ≠ aggKey it)).length < n := by
          have := List.length_filter_le (fun x => decide (aggKey x ≠ aggKey it)) rest
          simp only [List.length_cons] at hn
          omega
        obtain ⟨first, rest', hfe, hE⟩ := ih _ hlen _ rfl e he
        have hne : aggKey e ≠ aggKey it := by
          obtain ⟨x, hx, hxk⟩ := aggSpecRec_mem_key_aux _ _ rfl e he
          have := List.of_mem_filter hx
          simp only [decide_eq_true_eq] at this
          rw [← hxk]
          exact this
        refine ⟨first, rest', ?_, hE⟩
        rw [List.filter_cons_of_neg (by
          simp only [decide_eq_true_eq]
          exact fun h => hne h.symm)]
        rw [← hfe, List.filter_filter]
        apply List.filter_congr
        intro x _
        by_cases hx : aggKey x = aggKey e
        · simp [hx, hne]
        · simp [hx]

theorem staticFields_foldl_mergePure :
    ∀ (g : List ReceiptItem) (e : ReceiptItem),
      staticFields (g.foldl mergePure e) = staticFields e := by
  intro g
  induction g with
  | nil => intro e; rfl
  | cons x t ih => intro e; rw [List.foldl_cons, ih]; rfl

theorem foldl_mergePure_quantity :
    ∀ (g : List ReceiptItem) (e : ReceiptItem),
      (g.foldl mergePure e).quantity = e.quantity + (g.map (·.quantity)).sum := by
  intro g
  induction g with
  | nil => intro e; simp
  | cons x t ih =>
    intro e
    rw [List.foldl_cons, ih, List.map_cons, List.sum_cons]
    show e.quantity + x.quantity + _ = _
    rw [add_assoc]

theorem foldl_mergePure_lineTotal :
    ∀ (g : List ReceiptItem) (e : ReceiptItem),
      (g.foldl mergePure e).lineTotal =
        g.foldl (fun a b => round2 (a + b.lineTotal)) e.lineTotal := by
  intro g
  induction g with
  | nil => intro e; rfl
  | cons x t ih =>
    intro e
    rw [List.foldl_cons, ih, List.foldl_cons]
    rfl

theorem incRoundedSum_cons_map (first : ReceiptItem) (rest' : List ReceiptItem) :
    incRoundedSum ((first :: rest').map (·.lineTotal)) =
      rest'.foldl (fun a b => round2 (a + b.lineTotal)) first.lineTotal := by
  rw [List.map_cons]
  show (rest'.map (·.lineTotal)).foldl (fun a b => round2 (a + b)) first.lineTotal = _
  rw [List.foldl_map]

theorem aggSpecRec_mem {items : List ReceiptItem} {e : ReceiptItem} (he : e ∈ aggSpecRec items) :
    ∃ first rest', items.filter (fun x => aggKey x = aggKey e) = first :: rest' ∧
      e = rest'.foldl mergePure first :=
  aggSpecRec_mem_aux items.length items rfl e he

theorem isCent_round2 (q : ℚ) : IsCent (round2 q) := ⟨cents q, rfl⟩

theorem isCent_zero : IsCent 0 := ⟨0, by norm_num⟩

theorem isCent_add {a b : ℚ} (ha : IsCent a) (hb : IsCent b) : IsCent (a + b) := by
  obtain ⟨m, rfl⟩ := ha
  obtain ⟨n, rfl⟩ := hb
  exact ⟨m + n, by push_cast; ring⟩

theorem round2_eq_of_isCent {q : ℚ} (h : IsCent q) : round2 q = q := by
  obtain ⟨n, rfl⟩ := h
  exact round2_intCast_div n

theorem isCent_sum : ∀ {l : List ℚ}, (∀ x ∈ l, IsCent x) → IsCent l.sum := by
  intro l
  induction l with
  | nil => intro _; exact isCent_zero
  | cons x t ih =>
    intro h
    rw [List.sum_cons]
    exact isCent_add (h x (by simp)) (ih (fun y hy => h y (by simp [hy])))

theorem cent_foldl_round2 :
    ∀ (g : List ReceiptItem) (a : ℚ), (∀ x ∈ g, IsCent x.lineTotal) → IsCent a →
      g.foldl (fun a b => round2 (a + b.lineTotal)) a = a + (g.map (fun i => i.lineTotal)).sum := by
  intro g
  induction g with
  | nil => intro a _ _; simp
  | cons x t ih =>
    intro a hg ha
    rw [List.foldl_cons]
    have hx : IsCent x.lineTotal := hg x (by simp)
    rw [round2_eq_of_isCent (isCent_add ha hx)]
    rw [ih _ (fun y hy => hg y (by simp [hy])) (isCent_add ha hx)]
    rw [List.map_cons, List.sum_cons, add_assoc]

theorem sum_split_key :
    ∀ (l : List ReceiptItem) (k : String) (f : ReceiptItem → ℚ),
      ((l.filter (fun x => aggKey x = k)).map f).sum +
        ((l.filter (fun x => aggKey x ≠ k)).map f).sum = (l.map f).sum := by
  intro l
  induction l with
  | nil => intro k f; simp
  | cons x t ih =>
    intro k f
    by_cases hx : aggKey x = k
    · rw [List.filter_cons_of_pos (by simp [hx]), List.filter_cons_of_neg (by simp [hx])]
      rw [List.map_cons, List.sum_cons, List.map_cons, List.sum_cons, add_assoc, ih]
    · rw [List.filter_cons_of_neg (by simp [hx]), List.filter_cons_of_pos (by simp [hx])]
      rw [List.map_cons, List.sum_cons, List.map_cons, List.sum_cons, add_left_comm, ih]

theorem aggSpec_lineTotal_sum_aux :
    ∀ (n : Nat) (items : List ReceiptItem), items.length = n →
      (∀ x ∈ items, IsCent x.lineTotal) →
      ((aggSpecRec items).map (fun i => i.lineTotal)).sum =
        (items.map (fun i => i.lineTotal)).sum := by
  intro n
  induction n using Nat.strong_induction_on with
  | _ n ih =>
    intro items hn hcent
    match items with
    | [] => rw [aggSpecRec]
    | it :: rest =>
      rw [aggSpecRec, List.map_cons, List.sum_cons, foldl_mergePure_lineTotal]
      have hgc : ∀ x ∈ rest.filter (fun x => aggKey x = aggKey it), IsCent x.lineTotal :=
        fun x hx => hcent x (List.mem_cons_of_mem it (List.mem_of_mem_filter hx))
      rw [cent_foldl_round2 _ _ hgc (hcent it (by simp))]
      have hlen : (rest.filter (fun x => aggKey x ≠ aggKey it)).length < n := by
        have := List.length_filter_le (fun x => decide (aggKey x ≠ aggKey it)) rest
        simp only [List.length_cons] at hn
        omega
      rw [ih _ hlen _ rfl
        (fun x hx => hcent x (List.mem_cons_of_mem it (List.mem_of_mem_filter hx)))]
      rw [List.map_cons, List.sum_cons, add_assoc, sum_split_key]

theorem aggSpec_lineTotal_sum {items : List ReceiptItem}
    (hcent : ∀ x ∈ items, IsCent x.lineTotal) :
    ((aggSpecRec items).map (fun i => i.lineTotal)).sum =
      (items.map (fun i => i.lineTotal)).sum :=
  aggSpec_lineTotal_sum_aux items.length items rfl hcent

theorem foldl_add_lineTotal :
    ∀ (l : List ReceiptItem) (c : ℚ),
      l.foldl (fun a i => a + i.lineTotal) c = c + (l.map (fun i => i.lineTotal)).sum := by
  intro l
  induction l with
  | nil => intro c; simp
  | cons x t ih =>
    intro c
    rw [List.foldl_cons, ih, List.map_cons, List.sum_cons, add_assoc]

theorem transform_items_cent {p : Json} {o : Option String} {now : String} {r : Receipt}
    (h : transformReceipt p o now = .ok r) :
    ∀ it ∈ r.items, IsCent it.lineTotal := by
  intro it hit
  obtain ⟨e, he⟩ := forall₂_mem_right (transform_items_forall₂ h) it hit
  obtain ⟨_, _, _, hlt, _⟩ := buildItem_ok_decomp he
  rw [hlt]
  exact isCent_round2 _

theorem transform_agg_eq_aggSpecRec {p : Json} {o : Option String} {now : String} {r : Receipt}
    (h : transformReceipt p o now = .ok r) :
    r.aggregatedItems = aggSpecRec r.items := by
  obtain ⟨items, aggItems, _, hagg, hri, hra, _, _⟩ := transformReceipt_ok_decomp h
  rw [hra, hri, aggregateItems_ok hagg, pureAgg_eq_aggSpecRec]

/-- C3 (amended): on any successful transform, `aggregatedItems` groups
the items by the *joined* key string (one entry per distinct joined key,
in first-seen order); each entry merges its group's first item with the
later members, summing quantities, re-rounding the line total after
each merge, and keeping every other field of the first item
(`lineTotalFormatted` is reformatted from the merged total). -/
theorem aggregation_by_joined_key {p : Json} {o : Option String} {now : String} {r : Receipt}
    (h : transformReceipt p o now = .ok r) :
    r.aggregatedItems = aggSpecRec r.items ∧
    r.aggregatedItems.map aggKey = dedupStrings (r.items.map aggKey) ∧
    ∀ e ∈ r.aggregatedItems, ∃ first rest',
      r.items.filter (fun x => aggKey x = aggKey e) = first :: rest' ∧
      staticFields e = staticFields first ∧
      e.quantity = ((first :: rest').map (fun i => i.quantity)).sum ∧
      e.lineTotal = incRoundedSum ((first :: rest').map (fun i => i.lineTotal)) := by
  have h1 : r.aggregatedItems = aggSpecRec r.items := transform_agg_eq_aggSpecRec h
  refine ⟨h1, ?_, ?_⟩
  · rw [h1, aggSpecRec_keys]
  · intro e he
    rw [h1] at he
    obtain ⟨first, rest', hfe, hE⟩ := aggSpecRec_mem he
    refine ⟨first, rest', hfe, ?_, ?_, ?_⟩
    · rw [hE]
      exact staticFields_foldl_mergePure rest' first
    · rw [hE, foldl_mergePure_quantity, List.map_cons, List.sum_cons]
    · rw [hE, foldl_mergePure_lineTotal, incRoundedSum_cons_map]

/-- C4: on any successful transform the aggregated line totals add up
to exactly the item line totals (every line total is a whole number of
cents, so the incremental re-rounding is the identity), hence the
difference is within the 0.01 tolerance and the aggregated-sum
integrity check stays silent. -/
theorem aggregation_total_preserving {p : Json} {o : Option String} {now : String} {r : Receipt}
    (h : transformReceipt p o now = .ok r) :
    aggregatedSumOf r = sumLineTotalsOf r ∧
    |aggregatedSumOf r - sumLineTotalsOf r| ≤ 1 / 100 ∧
    aggregatedSumIssue r = [] := by
  have hcent := transform_items_cent h
  have hsum : aggregatedSumOf r = sumLineTotalsOf r := by
    unfold aggregatedSumOf sumLineTotalsOf
    rw [transform_agg_eq_aggSpecRec h, foldl_add_lineTotal, foldl_add_lineTotal,
        aggSpec_lineTotal_sum hcent]
  refine ⟨hsum, ?_, ?_⟩
  · rw [hsum, sub_self, abs_zero]
    norm_num
  · unfold aggregatedSumIssue
    rw [if_neg]
    rw [hsum, sub_self, abs_zero]
    norm_num

theorem except_bind_exists {ε α β : Type} {x : Except ε α} {f : α → Except ε β}
    (hx : ∃ a, x = .ok a) (hf : ∀ a, x = .ok a → ∃ b, f a = .ok b) :
    ∃ b, (x >>= f) = .ok b := by
  obtain ⟨a, ha⟩ := hx
  obtain ⟨b, hb⟩ := hf a ha
  refine ⟨b, ?_⟩
  rw [ha]
  exact hb

theorem access_ok {e : Json} (h : e.isNullV = false) (f : String) :
    access (some e) f = .ok (e.get f) := by
  cases e <;> first | rfl | cases h

theorem fmtMoney_ok_of_wf {c : Json} (h : wellFormedCurrency c.jsToString = true) (a : ℚ) :
    fmtMoney a c = .ok (c.jsToString ++ " " ++ fmt2 a) := by
  unfold fmtMoney
  rw [if_pos h]

theorem fmtMoney_wf_of_ok {a : ℚ} {c : Json} {s : String} (h : fmtMoney a c = .ok s) :
    wellFormedCurrency c.jsToString = true := by
  unfold fmtMoney at h
  by_cases hw : wellFormedCurrency c.jsToString = true
  · exact hw
  · rw [if_neg hw] at h
    cases h

theorem entriesOk_listOfJs {v : Option Json} {eOk : Json → Bool} (h : entriesOk v eOk = true)
    (lbl : String) : ∃ xs, listOfJs v lbl = .ok xs ∧ ∀ x ∈ xs, eOk x = true := by
  unfold entriesOk at h
  unfold listOfJs
  cases hm : jsOr v (.arr []) with
  | arr xs =>
    rw [hm] at h
    refine ⟨xs, rfl, ?_⟩
    intro x hx
    exact List.all_eq_true.mp h x hx
  | null => rw [hm] at h; simp at h
  | bool b => rw [hm] at h; simp at h
  | num q => rw [hm] at h; simp at h
  | str s => rw [hm] at h; simp at h
  | obj fs => rw [hm] at h; simp at h

theorem propStep_ok (m : List (String × String)) {pr : Json} (h : propOk pr = true) :
    ∃ m', propStep m pr = .ok m' := by
  unfold propOk strOrFalsy at h
  unfold propStep
  by_cases ht : jsTruthy (optGet (some pr) "title") = true
  · rw [if_pos ht]
    rw [ht] at h
    simp only [Bool.not_true, Bool.false_or] at h
    cases hm : optGet (some pr) "title" with
    | none => rw [hm] at h; simp at h
    | some v =>
      cases v with
      | str t =>
        show ∃ m',
            ((match strSplit (fun c => c = ':') t with
              | [] => Except.ok m
              | k :: rest =>
                if k ≠ "" ∧ rest ≠ [] then
                  Except.ok (assocSet m (jsTrim k) (jsTrim (String.intercalate ":" rest)))
                else Except.ok m) : Except JsErr (List (String × String))) = .ok m'
        cases strSplit (fun c => c = ':') t with
        | nil => exact ⟨m, rfl⟩
        | cons k rest =>
          by_cases hk : k ≠ "" ∧ rest ≠ []
          · exact ⟨_, if_pos hk⟩
          · exact ⟨m, if_neg hk⟩
      | null => rw [hm] at h; simp at h
      | bool b => rw [hm] at h; simp at h
      | num q => rw [hm] at h; simp at h
      | arr xs => rw [hm] at h; simp at h
      | obj fs => rw [hm] at h; simp at h
  · rw [if_neg ht]
    exact ⟨m, rfl⟩

theorem buildItem_total {payload e : Json} (h : itemOk payload e = true) :
    ∃ it, buildItem payload e = .ok it := by
  unfold itemOk at h
  rw [Bool.and_eq_true, Bool.and_eq_true] at h
  obtain ⟨⟨hnull, hwf⟩, hprops⟩ := h
  rw [Bool.not_eq_true'] at hnull
  unfold rawProductOf at hprops
  unfold buildItem
  refine except_bind_exists ⟨_, access_ok hnull "product"⟩ ?_
  intro productOpt hpo
  rw [access_ok hnull "product", Except.ok.injEq] at hpo
  subst hpo
  refine except_bind_exists ⟨_, fmtMoney_ok_of_wf hwf _⟩ ?_
  intro upf _
  refine except_bind_exists ⟨_, fmtMoney_ok_of_wf hwf _⟩ ?_
  intro ltf _
  obtain ⟨xs, hxs, hall⟩ := entriesOk_listOfJs hprops "item_properties"
  refine except_bind_exists ⟨xs, hxs⟩ ?_
  intro itemProps hip
  rw [hxs, Except.ok.injEq] at hip
  subst hip
  refine except_bind_exists (foldlM_ok_of_forall (fun m pr hpr => propStep_ok m (hall pr hpr))) ?_
  intro propMap _
  exact ⟨_, rfl⟩

theorem mergeAgg_total {e it : ReceiptItem}
    (h : wellFormedCurrency (it.currency.jsToString) = true) :
    ∃ x, mergeAgg e it = .ok x := by
  unfold mergeAgg
  refine except_bind_exists ⟨_, fmtMoney_ok_of_wf h _⟩ ?_
  intro f _
  exact ⟨_, rfl⟩

theorem aggStep_total {acc : List (String × ReceiptItem)} {it : ReceiptItem}
    (h : wellFormedCurrency (it.currency.jsToString) = true) :
    ∃ acc', aggStep acc it = .ok acc' := by
  unfold aggStep
  by_cases hany : acc.any (fun kv => kv.1 = aggKey it) = true
  · rw [if_pos hany]
    apply mapM_ok_of_forall
    intro kv _
    by_cases hkv : kv.1 = aggKey it
    · rw [if_pos hkv]
      refine except_bind_exists (mergeAgg_total h) ?_
      intro x _
      exact ⟨_, rfl⟩
    · rw [if_neg hkv]
      exact ⟨kv, rfl⟩
  · rw [if_neg hany]
    exact ⟨_, rfl⟩

theorem aggregateItems_total {items : List ReceiptItem}
    (h : ∀ it ∈ items, wellFormedCurrency (it.currency.jsToString) = true) :
    ∃ l, aggregateItems items = .ok l := by
  unfold aggregateItems
  refine except_bind_exists (foldlM_ok_of_forall (fun acc it hit => aggStep_total (h it hit))) ?_
  intro m _
  exact ⟨_, rfl⟩

theorem buildTaxLine_total {t : Json} (h : t.isNullV = false) :
    ∃ x, buildTaxLine t = .ok x := by
  unfold buildTaxLine
  refine except_bind_exists ⟨_, access_ok h "title"⟩ ?_
  intro titleOpt _
  exact ⟨_, rfl⟩

theorem rawNameOf_ok {e : Json} (h : strOrFalsy (e.get "name") = true) :
    ∃ s, rawNameOf e = .ok s := by
  unfold strOrFalsy at h
  unfold rawNameOf
  cases hm : e.get "name" with
  | none => exact ⟨"", rfl⟩
  | some v =>
    rw [hm] at h
    have hj : jsOr (some v) (Json.str "") = if v.truthy = true then v else Json.str "" := rfl
    by_cases ht : v.truthy = true
    · cases v with
      | str s => exact ⟨s, by rw [hj, if_pos ht]; rfl⟩
      | null => cases ht
      | bool b => simp [jsTruthy, ht] at h
      | num q => simp [jsTruthy, ht] at h
      | arr xs => simp [jsTruthy, ht] at h
      | obj fs => simp [jsTruthy, ht] at h
    · exact ⟨"", by rw [hj, if_neg ht]; rfl⟩

theorem methodOf_ok {g : Option Json} (h : strOrFalsy g = true) :
    ∃ m, methodOf g = .ok m := by
  unfold strOrFalsy at h
  unfold methodOf
  cases g with
  | none => exact ⟨_, rfl⟩
  | some v =>
    cases v with
    | str s => exact ⟨_, rfl⟩
    | null => exact ⟨_, if_neg (by decide)⟩
    | bool b =>
      by_cases ht : (Json.bool b).truthy = true
      · simp [jsTruthy, ht] at h
      · rw [Bool.not_eq_true] at ht
        exact ⟨_, if_neg (by simp [ht])⟩
    | num q =>
      by_cases ht : (Json.num q).truthy = true
      · simp [jsTruthy, ht] at h
      · rw [Bool.not_eq_true] at ht
        exact ⟨_, if_neg (by simp [ht])⟩
    | arr xs => simp [jsTruthy, Json.truthy] at h
    | obj fs => simp [jsTruthy, Json.truthy] at h

theorem strOrFalsy_strMap (o' : Option String) (f : String → String) :
    strOrFalsy (o'.map (fun s => .str (f s))) = true := by
  cases o' <;> simp [strOrFalsy, Option.map, jsTruthy]

theorem buildPayment_total {payload e : Json} (hp : paymentOk e = true)
    (hccy : wellFormedCurrency
      ((jsOr (payloadGet payload "currency_code") (.str "AUD")).jsToString) = true) :
    ∃ d, buildPayment payload e = .ok d := by
  unfold paymentOk at hp
  rw [Bool.and_eq_true, Bool.and_eq_true] at hp
  obtain ⟨⟨hnull, hname⟩, hpmt⟩ := hp
  rw [Bool.not_eq_true'] at hnull
  unfold buildPayment
  refine except_bind_exists ⟨_, access_ok hnull "amount"⟩ ?_
  intro amountF _
  refine except_bind_exists (rawNameOf_ok hname) ?_
  intro rawName _
  refine except_bind_exists (methodOf_ok ?_) ?_
  · by_cases ht : jsTruthy (e.get "payment_method_type") = true
    · rw [if_pos ht]
      exact hpmt
    · rw [if_neg ht]
      exact strOrFalsy_strMap _ _
  · intro method _
    refine except_bind_exists ⟨_, fmtMoney_ok_of_wf hccy _⟩ ?_
    intro amountFormatted _
    exact ⟨_, rfl⟩

theorem buildLoyalty1_total {l : Json} (h : l.isNullV = false) :
    ∃ x, buildLoyalty1 l = .ok x := by
  unfold buildLoyalty1
  refine except_bind_exists ⟨_, access_ok h "description"⟩ ?_
  intro descF _
  exact ⟨_, rfl⟩

theorem buildDateTime_total {p : Json} (h : dateOk p = true) :
    ∃ d, buildDateTime p = .ok d := by
  unfold dateOk at h
  unfold buildDateTime
  by_cases hiso : jsTruthy (payloadGet p "issued_at_iso") = true
  · rw [if_pos hiso]
    exact ⟨_, rfl⟩
  · rw [if_neg hiso]
    rw [Bool.not_eq_true] at hiso
    rw [hiso] at h
    simp only [Bool.false_or, Bool.or_eq_true, decide_eq_true_eq] at h
    by_cases hz : (numOf (payloadGet p "issued_at")).getD 0 ≠ 0
    · rw [if_pos hz]
      have hle : |((numOf (payloadGet p "issued_at")).getD 0) * 1000| ≤ 8640000000000000 := by
        rcases h with h | h
        · exact absurd h hz
        · exact h
      unfold msClip
      rw [if_pos hle]
      exact ⟨_, rfl⟩
    · rw [if_neg hz]
      exact ⟨_, rfl⟩

theorem buildPaymentCardMeta_total {p : Json}
    (h : strOrFalsy (payloadGet p "raw_payment_data") = true) :
    ∃ x, buildPaymentCardMeta p = .ok x := by
  unfold strOrFalsy at h
  unfold buildPaymentCardMeta
  by_cases ht : jsTruthy (payloadGet p "raw_payment_data") = true
  · rw [if_pos ht]
    rw [ht] at h
    simp only [Bool.not_true, Bool.false_or] at h
    cases hm : payloadGet p "raw_payment_data" with
    | none => rw [hm] at h; simp at h
    | some v =>
      cases v with
      | str s => exact ⟨_, rfl⟩
      | null => rw [hm] at h; simp at h
      | bool b => rw [hm] at h; simp at h
      | num q => rw [hm] at h; simp at h
      | arr xs => rw [hm] at h; simp at h
      | obj fs => rw [hm] at h; simp at h
  · rw [if_neg ht]
    exact ⟨_, rfl⟩

theorem fmtOptMoney_total {c : Json} (h : wellFormedCurrency c.jsToString = true)
    (v : Option ℚ) : ∃ s, fmtOptMoney v c = .ok s := by
  unfold fmtOptMoney
  cases v with
  | none => exact ⟨_, rfl⟩
  | some x =>
    refine ⟨some (c.jsToString ++ " " ++ fmt2 x), ?_⟩
    show Except.map some (fmtMoney x c) = _
    rw [fmtMoney_ok_of_wf h]
    rfl

theorem buildItem_currency_wf {payload e : Json} {it : ReceiptItem}
    (h : buildItem payload e = .ok it) :
    wellFormedCurrency (it.currency.jsToString) = true := by
  unfold buildItem at h
  rw [except_bind_ok_iff] at h
  obtain ⟨productOpt, hpo, h⟩ := h
  rw [except_bind_ok_iff] at h
  obtain ⟨upf, hupf, h⟩ := h
  rw [except_bind_ok_iff] at h
  obtain ⟨ltf, hltf, h⟩ := h
  rw [except_bind_ok_iff] at h
  obtain ⟨itemProps, hip, h⟩ := h
  rw [except_bind_ok_iff] at h
  obtain ⟨propMap, hpm, h⟩ := h
  simp only [Except.ok.injEq] at h
  subst h
  exact fmtMoney_wf_of_ok hupf

theorem buildItems_total {p : Json} (h : ∀ e ∈ rawBasketItems p, itemOk p e = true) :
    ∃ items, buildItems p = .ok items := by
  unfold buildItems
  exact mapM_ok_of_forall (fun e he => buildItem_total (h e he))

theorem buildItems_currencies_wf {p : Json} {items : List ReceiptItem}
    (h : buildItems p = .ok items) :
    ∀ it ∈ items, wellFormedCurrency (it.currency.jsToString) = true := by
  intro it hit
  obtain ⟨e, he⟩ := forall₂_mem_right (mapM_ok_forall₂ h) it hit
  exact buildItem_currency_wf he

theorem topCurrency_wf {p : Json} {items : List ReceiptItem}
    (hcc : wellFormedCurrency
      ((jsOr (payloadGet p "currency_code") (.str "AUD")).jsToString) = true)
    (hitems : ∀ it ∈ items, wellFormedCurrency (it.currency.jsToString) = true) :
    wellFormedCurrency
      ((jsOr (payloadGet p "currency_code")
        (jsOr ((items.head?).map (fun i => i.currency)) (.str "AUD"))).jsToString) = true := by
  have hAUD : wellFormedCurrency ((Json.str "AUD").jsToString) = true := by rfl
  have hfallback : wellFormedCurrency
      ((jsOr ((items.head?).map (fun i => i.currency)) (.str "AUD")).jsToString) = true := by
    cases items with
    | nil => exact hAUD
    | cons it rest =>
      show wellFormedCurrency ((jsOr (some it.currency) (.str "AUD")).jsToString) = true
      have hj : jsOr (some it.currency) (.str "AUD") =
          if it.currency.truthy = true then it.currency else .str "AUD" := rfl
      rw [hj]
      by_cases ht : it.currency.truthy = true
      · rw [if_pos ht]
        exact hitems it (by simp)
      · rw [if_neg ht]
        exact hAUD
  cases hm : payloadGet p "currency_code" with
  | none => exact hfallback
  | some v =>
    rw [hm] at hcc
    have hj : ∀ b : Json, jsOr (some v) b = if v.truthy = true then v else b := fun b => rfl
    rw [hj] at hcc
    rw [hj]
    by_cases ht : v.truthy = true
    · rw [if_pos ht] at hcc
      rw [if_pos ht]
      exact hcc
    · rw [if_neg ht]
      exact hfallback

theorem transformCore_total (p : Json) (o : Option String) (h : GoodShape p = true) :
    ∃ r, transformCore p o = .ok r := by
  unfold GoodShape at h
  rw [Bool.and_eq_true, Bool.and_eq_true, Bool.and_eq_true, Bool.and_eq_true,
      Bool.and_eq_true, Bool.and_eq_true] at h
  obtain ⟨⟨⟨⟨⟨⟨hbasket, hcc⟩, htax⟩, hpay⟩, hloy⟩, hdate⟩, hraw⟩ := h
  have hitems_ok : ∀ e ∈ rawBasketItems p, itemOk p e = true :=
    fun e he => List.all_eq_true.mp hbasket e he
  unfold transformCore
  refine except_bind_exists (buildItems_total hitems_ok) ?_
  intro items hitems
  have hwf_items := buildItems_currencies_wf hitems
  refine except_bind_exists (aggregateItems_total hwf_items) ?_
  intro aggItems _
  obtain ⟨txs, htxs, htall⟩ := entriesOk_listOfJs htax "tax_details"
  refine except_bind_exists ⟨txs, htxs⟩ ?_
  intro taxDetails htd
  rw [htxs, Except.ok.injEq] at htd
  subst htd
  refine except_bind_exists (mapM_ok_of_forall (fun t ht => buildTaxLine_total (by
    have hb := htall t ht
    rwa [Bool.not_eq_true'] at hb))) ?_
  intro taxLines _
  obtain ⟨pys, hpys, hpall⟩ := entriesOk_listOfJs hpay "payments"
  refine except_bind_exists ⟨pys, hpys⟩ ?_
  intro paymentsRaw hpr
  rw [hpys, Except.ok.injEq] at hpr
  subst hpr
  refine except_bind_exists
    (mapM_ok_of_forall (fun q hq => buildPayment_total (hpall q hq) hcc)) ?_
  intro paymentDetails _
  refine except_bind_exists (buildDateTime_total hdate) ?_
  intro dateTime _
  obtain ⟨lys, hlys, hlall⟩ := entriesOk_listOfJs hloy "loyalty"
  refine except_bind_exists ⟨lys, hlys⟩ ?_
  intro loyaltyRaw hlr
  rw [hlys, Except.ok.injEq] at hlr
  subst hlr
  refine except_bind_exists (mapM_ok_of_forall (fun l hl => buildLoyalty1_total (by
    have hb := hlall l hl
    rwa [Bool.not_eq_true'] at hb))) ?_
  intro loyaltyAll _
  refine except_bind_exists (buildPaymentCardMeta_total hraw) ?_
  intro paymentCardMeta _
  have hcur := topCurrency_wf hcc hwf_items
  refine except_bind_exists ⟨_, fmtMoney_ok_of_wf hcur _⟩ ?_
  intro totalFormatted _
  refine except_bind_exists (fmtOptMoney_total hcur _) ?_
  intro subtotalFormatted _
  refine except_bind_exists (fmtOptMoney_total hcur _) ?_
  intro taxTotalFormatted _
  refine except_bind_exists (mapM_ok_of_forall (fun t _ => ⟨_, by
    rw [fmtMoney_ok_of_wf hcur]
    rfl⟩)) ?_
  intro taxes _
  refine except_bind_exists ⟨_, fmtMoney_ok_of_wf hcur _⟩ ?_
  intro totalPaidFormatted _
  exact ⟨_, rfl⟩

/-- C1 (amended): the transform is not total — a `null` entry in one of
the four mapped arrays, a truthy non-string where a string method is
called, a malformed currency code or an out-of-range numeric
`issued_at` makes it throw — but on every payload satisfying the
decidable `GoodShape` guard it returns a receipt; hashing
(`sha256Object`) is total and is never a failure path. -/
theorem transform_total_on_goodShape (p : Json) (o : Option String) (now : String)
    (h : GoodShape p = true) :
    (∃ r, transformReceipt p o now = .ok r) ∧ (sha256Object p).isSome = true := by
  obtain ⟨r, hr⟩ := transformCore_total p o h
  constructor
  · refine ⟨{ r with meta := { r.meta with fetchedAtISO := now } }, ?_⟩
    unfold transformReceipt
    rw [hr]
    rfl
  · rfl

theorem isDigit_ne_star {c : Char} (h : c.isDigit = true) : c ≠ '*' := by
  intro hc
  subst hc
  exact absurd h (by decide)

theorem hasAdjacentRun_cons (c : Char) {cs : List Char} (h : hasAdjacentRun cs) :
    hasAdjacentRun (c :: cs) := by
  obtain ⟨a, d₁, d₂, b, hsplit, h1, h2⟩ := h
  exact ⟨c :: a, d₁, d₂, b, by rw [hsplit]; rfl, h1, h2⟩

theorem hasAdjacentRun_stars (s : List Char) (hs : ∀ x ∈ s, x = '*')
    (d₁ d₂ : Char) (b : List Char) (h1 : d₁.isDigit = true) (h2 : d₂.isDigit = true) :
    hasAdjacentRun ('*' :: s ++ d₁ :: d₂ :: b) := by
  induction s with
  | nil => exact ⟨[], d₁, d₂, b, rfl, h1, h2⟩
  | cons x s ih =>
    have hx : x = '*' := hs x (by simp)
    subst hx
    exact hasAdjacentRun_cons '*' (ih (fun y hy => hs y (by simp [hy])))

theorem maskedCapture_some_hasRun :
    ∀ {cs ds : List Char}, maskedCapture cs = some ds → hasAdjacentRun cs := by
  intro cs
  induction cs with
  | nil => intro ds h; simp [maskedCapture] at h
  | cons c cs ih =>
    intro ds h
    by_cases hc : c = '*'
    · subst hc
      rw [maskedCapture] at h
      simp only [if_pos rfl] at h
      by_cases hlen : 2 ≤ (((cs.dropWhile (· = '*')).takeWhile Char.isDigit).take 4).length
      · rw [if_pos hlen] at h
        have htw : 2 ≤ ((cs.dropWhile (· = '*')).takeWhile Char.isDigit).length := by
          have := List.length_take 4 ((cs.dropWhile (· = '*')).takeWhile Char.isDigit)
          omega
        obtain ⟨e₁, e₂, t, htweq⟩ :
            ∃ e₁ e₂ t, (cs.dropWhile (· = '*')).takeWhile Char.isDigit = e₁ :: e₂ :: t := by
          match hm : (cs.dropWhile (· = '*')).takeWhile Char.isDigit with
          | [] => rw [hm] at htw; simp at htw
          | [x] => rw [hm] at htw; simp at htw
          | x :: y :: t => exact ⟨x, y, t, rfl⟩
        have he₁ : e₁.isDigit = true := by
          have : e₁ ∈ (cs.dropWhile (· = '*')).takeWhile Char.isDigit := by simp [htweq]
          exact List.mem_takeWhile_imp this
        have he₂ : e₂.isDigit = true := by
          have : e₂ ∈ (cs.dropWhile (· = '*')).takeWhile Char.isDigit := by simp [htweq]
          exact List.mem_takeWhile_imp this
        obtain ⟨t', ht'⟩ := (List.takeWhile_prefix (l := cs.dropWhile (· = '*'))
          (p := Char.isDigit))
        have hdrop : cs.dropWhile (· = '*') = e₁ :: e₂ :: (t ++ t') := by
          rw [← ht', htweq]
          simp
        have hcs : cs = cs.takeWhile (· = '*') ++ (e₁ :: e₂ :: (t ++ t')) := by
          conv_lhs => rw [← List.takeWhile_append_dropWhile (p := (· = '*')) (l := cs)]
          rw [hdrop]
        rw [hcs]
        exact hasAdjacentRun_stars (cs.takeWhile (· = '*'))
          (fun x hx => by simpa using List.mem_takeWhile_imp hx) e₁ e₂ (t ++ t') he₁ he₂
      · rw [if_neg hlen] at h
        exact hasAdjacentRun_cons '*' (ih h)
    · rw [maskedCapture] at h
      simp only [if_neg hc] at h
      exact hasAdjacentRun_cons c (ih h)

theorem maskedCapture_isSome_of_run :
    ∀ (a : List Char) {d₁ d₂ : Char} (b : List Char),
      d₁.isDigit = true → d₂.isDigit = true →
      (maskedCapture (a ++ '*' :: d₁ :: d₂ :: b)).isSome = true := by
  intro a
  induction a with
  | nil =>
    intro d₁ d₂ b h1 h2
    rw [List.nil_append, maskedCapture]
    simp only [if_pos rfl]
    have hd : (d₁ :: d₂ :: b).dropWhile (· = '*') = d₁ :: d₂ :: b := by
      rw [List.dropWhile_cons_of_neg]
      simp [isDigit_ne_star h1]
    rw [hd]
    have ht : (d₁ :: d₂ :: b).takeWhile Char.isDigit = d₁ :: d₂ :: (b.takeWhile Char.isDigit) := by
      rw [List.takeWhile_cons_of_pos h1, List.takeWhile_cons_of_pos h2]
    rw [ht]
    have hlen : 2 ≤ ((d₁ :: d₂ :: b.takeWhile Char.isDigit).take 4).length := by
      simp [List.length_take]
    rw [if_pos hlen]
    rfl
  | cons x a ih =>
    intro d₁ d₂ b h1 h2
    rw [List.cons_append, maskedCapture]
    by_cases hx : x = '*'
    · simp only [if_pos hx]
      by_cases hlen :
          2 ≤ ((((a ++ '*' :: d₁ :: d₂ :: b).dropWhile (· = '*')).takeWhile Char.isDigit).take 4).length
      · rw [if_pos hlen]
        rfl
      · rw [if_neg hlen]
        exact ih b h1 h2
    · simp only [if_neg hx]
      exact ih b h1 h2

theorem maskedCapture_some_shape :
    ∀ {cs ds : List Char}, maskedCapture cs = some ds →
      2 ≤ ds.length ∧ ds.length ≤ 4 ∧ ds.all Char.isDigit = true := by
  intro cs
  induction cs with
  | nil => intro ds h; simp [maskedCapture] at h
  | cons c cs ih =>
    intro ds h
    by_cases hc : c = '*'
    · rw [maskedCapture] at h
      simp only [if_pos hc] at h
      by_cases hlen : 2 ≤ (((cs.dropWhile (· = '*')).takeWhile Char.isDigit).take 4).length
      · rw [if_pos hlen] at h
        injection h with hds
        subst hds
        refine ⟨hlen, ?_, ?_⟩
        · have := List.length_take 4 ((cs.dropWhile (· = '*')).takeWhile Char.isDigit)
          omega
        · rw [List.all_eq_true]
          intro x hx
          exact List.mem_takeWhile_imp (List.take_subset 4 _ hx)
      · rw [if_neg hlen] at h
        exact ih h
    · rw [maskedCapture] at h
      simp only [if_neg hc] at h
      exact ih h

/-- The shape of a successful `buildPayment`: `maskedCard` is the
rendered capture of the masked-digit scan over `rawName`. -/
theorem buildPayment_ok_decomp {payload pj : Json} {pd : PaymentDetail}
    (h : buildPayment payload pj = .ok pd) :
    pd.maskedCard =
      (maskedCapture pd.rawName.toList).map (fun ds => "**** *" ++ String.mk ds) := by
  unfold buildPayment at h
  rw [except_bind_ok_iff] at h
  obtain ⟨amountF, _, h⟩ := h
  rw [except_bind_ok_iff] at h
  obtain ⟨rawName, hrn, h⟩ := h
  rw [except_bind_ok_iff] at h
  obtain ⟨method, _, h⟩ := h
  rw [except_bind_ok_iff] at h
  obtain ⟨amountFormatted, _, h⟩ := h
  simp only [Except.ok.injEq] at h
  subst h
  rfl

/-- C8 (amended): `maskedCard` is present exactly when some run of at
least two digits is immediately preceded by an asterisk in the raw
descriptor, and it then renders as `"**** *DDDD"` with `DDDD` the
leftmost greedy capture of two to four digits; a space between the
asterisks and the digits (as in `"VISA (**** 1234)"`) breaks adjacency
and yields no masked card. -/
theorem maskedCard_adjacent_run_characterization (payload pj : Json) (pd : PaymentDetail)
    (h : buildPayment payload pj = .ok pd) :
    pd.maskedCard =
      (maskedCapture pd.rawName.toList).map (fun ds => "**** *" ++ String.mk ds) ∧
    ((∃ ds, maskedCapture pd.rawName.toList = some ds) ↔ hasAdjacentRun pd.rawName.toList) ∧
    (∀ ds, maskedCapture pd.rawName.toList = some ds →
      2 ≤ ds.length ∧ ds.length ≤ 4 ∧ ds.all Char.isDigit = true) := by
  refine ⟨buildPayment_ok_decomp h, ⟨?_, ?_⟩, fun ds hds => maskedCapture_some_shape hds⟩
  · rintro ⟨ds, hds⟩
    exact maskedCapture_some_hasRun hds
  · rintro ⟨a, d₁, d₂, b, hsplit, h1, h2⟩
    rw [hsplit]
    rw [← Option.isSome_iff_exists]
    exact maskedCapture_isSome_of_run a b h1 h2

section

set_option maxHeartbeats 1000000

attribute [local semireducible] Rat.mul Rat.add Rat.sub Rat.inv Rat.ofScientific

/-- C2 counterexample: a positive fractional `quantity_purchased` is
passed through, so the assembled quantity is `0.5 < 1`, refuting
`quantity ≥ 1`. -/
theorem quantity_below_one_on_fractional_input :
    (transformReceipt fractionalQtyPayload none "t").toOption.map
      (fun r => r.items.map (fun i => i.quantity)) = some [1 / 2] ∧
    ¬ ((1 : ℚ) ≤ 1 / 2) := by
  constructor
  · rfl
  · norm_num

/-- C2 witness. -/
theorem quantity_positive_and_coercion_witness :
    transformReceipt witnessPayload none "2024-01-01T00:00:00.000Z" = .ok witnessReceipt ∧
    List.Forall₂ (fun e it => it.quantity = quantityOf e)
      (rawBasketItems witnessPayload) witnessReceipt.items := by
  have hok : transformReceipt witnessPayload none "2024-01-01T00:00:00.000Z" = .ok witnessReceipt := by
    rfl
  exact ⟨hok,
    (quantity_positive_and_coercion witnessPayload none "2024-01-01T00:00:00.000Z"
      witnessReceipt hok).2⟩

/-- C10 witness. -/
theorem receipt_currency_resolution_witness :
    transformReceipt witnessPayload none "2024-01-01T00:00:00.000Z" = .ok witnessReceipt ∧
    witnessReceipt.totals.currency =
      jsOr (payloadGet witnessPayload "currency_code")
        (jsOr ((witnessReceipt.items.head?).map (·.currency)) (.str "AUD")) := by
  have hok : transformReceipt witnessPayload none "2024-01-01T00:00:00.000Z" = .ok witnessReceipt := by
    rfl
  exact ⟨hok,
    (receipt_currency_resolution witnessPayload none "2024-01-01T00:00:00.000Z"
      witnessReceipt hok).1⟩

/-- C7 witness. -/
theorem unitPrice_lineTotal_rounding_witness :
    transformReceipt witnessPayload none "2024-01-01T00:00:00.000Z" = .ok witnessReceipt ∧
    List.Forall₂
      (fun e it =>
        it.unitPrice = round2 (rawUnitPriceOf e) ∧
        it.lineTotal = round2 (it.unitPrice * it.quantity))
      (rawBasketItems witnessPayload) witnessReceipt.items := by
  have hok : transformReceipt witnessPayload none "2024-01-01T00:00:00.000Z" = .ok witnessReceipt := by
    rfl
  exact ⟨hok,
    unitPrice_lineTotal_rounding witnessPayload none "2024-01-01T00:00:00.000Z"
      witnessReceipt hok⟩

/-- C6 witness: two runs with different clock values. -/
theorem transform_deterministic_witness :
    transformReceipt witnessPayload none "2024-01-01T00:00:00.000Z" = .ok witnessReceipt ∧
    transformReceipt witnessPayload none "2025-06-30T12:00:00.000Z" = .ok witnessReceipt2 ∧
    witnessReceipt.meta.rawHash = witnessReceipt2.meta.rawHash ∧
    witnessReceipt.aggregatedItems = witnessReceipt2.aggregatedItems := by
  have hok1 : transformReceipt witnessPayload none "2024-01-01T00:00:00.000Z" = .ok witnessReceipt := by
    rfl
  have hok2 : transformReceipt witnessPayload none "2025-06-30T12:00:00.000Z" = .ok witnessReceipt2 := by
    rfl
  have h := transform_deterministic_except_fetchedAt witnessPayload none
    "2024-01-01T00:00:00.000Z" "2025-06-30T12:00:00.000Z" witnessReceipt witnessReceipt2 hok1 hok2
  exact ⟨hok1, hok2, h.2.1, h.2.2.1⟩

/-- C8 counterexample: the descriptor `"VISA (**** 1234)"` yields no
masked card at all (the space breaks the asterisk–digit adjacency the
regex requires), refuting the claimed `"**** *1234"`. -/
theorem maskedCard_absent_for_spaced_descriptor :
    (transformReceipt spacedCardPayload none "t").toOption.map
      (fun r => r.payments.map (fun p => p.maskedCard)) = some [none] := by
  rfl

/-- C8 witness: the real upstream shape `"VISA (*****659)"` does render. -/
theorem maskedCard_characterization_witness :
    buildPayment witnessPayload witnessPaymentJson = .ok witnessPaymentDetail ∧
    witnessPaymentDetail.maskedCard =
      (maskedCapture witnessPaymentDetail.rawName.toList).map
        (fun ds => "**** *" ++ String.mk ds) ∧
    witnessPaymentDetail.maskedCard = some "**** *659" := by
  have hok : buildPayment witnessPayload witnessPaymentJson = .ok witnessPaymentDetail := by
    rfl
  exact ⟨hok,
    (maskedCard_adjacent_run_characterization witnessPayload witnessPaymentJson
      witnessPaymentDetail hok).1, rfl⟩

end

section

set_option maxHeartbeats 1000000

attribute [local semireducible] Rat.mul Rat.add Rat.sub Rat.inv Rat.ofScientific

/-- C5: `validateReceipt` reports the structural issues followed by the
five integrity checks in order; each check contributes at most one
issue, contributes it exactly when it is applicable and fails at the
`0.01` tolerance, and the success flag depends only on structural
validity — it is `true` on a tampered but structurally valid receipt
whose issue list is non-empty. -/
theorem validateReceipt_characterization (r : Receipt) :
    (validateReceipt r).validationSuccess = (structuralIssues r).isEmpty ∧
    (validateReceipt r).issues =
      structuralIssues r ++ lineTotalsIssue r ++ totalPaidIssue r ++ subtotalTaxIssue r ++
        itemCountIssue r ++ aggregatedSumIssue r ∧
    (lineTotalsIssue r ≠ [] ↔ |sumLineTotalsOf r - r.totals.total| > 1 / 100) ∧
    (totalPaidIssue r ≠ [] ↔ |totalPaidOf r - r.totals.total| > 1 / 100) ∧
    (subtotalTaxIssue r ≠ [] ↔ ∃ st tt, r.totals.subtotal = some st ∧
      r.totals.taxTotal = some tt ∧ |round2 (st + tt) - r.totals.total| > 1 / 100) ∧
    (itemCountIssue r ≠ [] ↔ ∃ ic, r.totals.itemCount = some ic ∧
      ic ≠ (r.items.length : ℚ)) ∧
    (aggregatedSumIssue r ≠ [] ↔ |aggregatedSumOf r - sumLineTotalsOf r| > 1 / 100) ∧
    (lineTotalsIssue r).length ≤ 1 ∧ (totalPaidIssue r).length ≤ 1 ∧
    (subtotalTaxIssue r).length ≤ 1 ∧ (itemCountIssue r).length ≤ 1 ∧
    (aggregatedSumIssue r).length ≤ 1 ∧
    ((validateReceipt tamperedWitnessReceipt).validationSuccess = true ∧
      (validateReceipt tamperedWitnessReceipt).issues.isEmpty = false) := by
  refine ⟨?_, ?_, ?_, ?_, ?_, ?_, ?_, ?_, ?_, ?_, ?_, ?_, ?_⟩
  · unfold validateReceipt
    with_reducible rfl
  · unfold validateReceipt
    with_reducible rfl
  · unfold lineTotalsIssue
    split <;> simp_all
  · unfold totalPaidIssue
    split <;> simp_all
  · unfold subtotalTaxIssue
    rcases hst : r.totals.subtotal with _ | st <;> rcases htt : r.totals.taxTotal with _ | tt <;>
      simp only [hst, htt]
    · simp
    · simp
    · simp
    · split <;> rename_i hgt
      · simp only [ne_eq, List.cons_ne_nil, not_false_eq_true, true_iff]
        exact ⟨st, tt, rfl, rfl, hgt⟩
      · simp only [ne_eq, not_true_eq_false, false_iff, not_exists]
        rintro st' tt' ⟨hst', htt', hgt'⟩
        cases hst'
        cases htt'
        exact hgt hgt'
  · unfold itemCountIssue
    rcases hic : r.totals.itemCount with _ | ic <;> simp only [hic]
    · simp
    · split <;> rename_i hne
      · simp only [ne_eq, List.cons_ne_nil, not_false_eq_true, true_iff]
        exact ⟨ic, rfl, hne⟩
      · simp only [ne_eq, not_true_eq_false, false_iff, not_exists]
        rintro ic' ⟨hic', hne'⟩
        cases hic'
        exact hne hne'
  · unfold aggregatedSumIssue
    split <;> simp_all
  · unfold lineTotalsIssue
    split <;> simp
  · unfold totalPaidIssue
    split <;> simp
  · unfold subtotalTaxIssue
    split
    · dsimp only
      split <;> simp
    · simp
  · unfold itemCountIssue
    split
    · split <;> simp
    · simp
  · unfold aggregatedSumIssue
    split <;> simp
  · constructor
    · rfl
    · rfl

end

/-- C1 counterexample: `transformReceipt` throws (the model returns
`.error`) on a payload whose `basket_items` contains `null`, so it is
not total over malformed payloads and the failure is not in hashing. -/
theorem transform_throws_on_null_basket_entry :
    (transformReceipt nullBasketPayload none "t").isOk = false := by
  rfl

section

set_option maxHeartbeats 1000000

attribute [local semireducible] Rat.mul Rat.add Rat.sub Rat.inv Rat.ofScientific

/-- C3 counterexample: the two items of `collisionPayload` have
different identity tuples (names `"a|b"` vs `"a"`, skus `"c"` vs
`"b|c"`), yet `aggregatedItems` has a single entry, because the
`join('|')` key renders both tuples as the same string; so the grouping
is by joined key string, not by the tuple. -/
theorem aggregation_merges_distinct_tuples :
    (transformReceipt collisionPayload none "2024-01-01T00:00:00.000Z").toOption.map
        (fun r => (r.items.map (fun i => i.name), r.items.map (fun i => i.sku),
                   r.aggregatedItems.length)) =
      some ([.str "a|b", .str "a"], [some "c", some "b|c"], 1) := by
  rfl

/-- C3 witness. -/
theorem aggregation_by_joined_key_witness :
    transformReceipt witnessPayload none "2024-01-01T00:00:00.000Z" = .ok witnessReceipt ∧
    witnessReceipt.aggregatedItems = aggSpecRec witnessReceipt.items := by
  have hok : transformReceipt witnessPayload none "2024-01-01T00:00:00.000Z" =
      .ok witnessReceipt := by
    rfl
  exact ⟨hok, (aggregation_by_joined_key hok).1⟩

/-- C1 witness. -/
theorem transform_total_on_goodShape_witness :
    GoodShape witnessPayload = true ∧
    (∃ r, transformReceipt witnessPayload none "2024-01-01T00:00:00.000Z" = .ok r) ∧
    (sha256Object witnessPayload).isSome = true := by
  have hg : GoodShape witnessPayload = true := by rfl
  obtain ⟨he, hs⟩ :=
    transform_total_on_goodShape witnessPayload none "2024-01-01T00:00:00.000Z" hg
  exact ⟨hg, he, hs⟩

/-- C4 witness. -/
theorem aggregation_total_preserving_witness :
    transformReceipt witnessPayload none "2024-01-01T00:00:00.000Z" = .ok witnessReceipt ∧
    aggregatedSumOf witnessReceipt = sumLineTotalsOf witnessReceipt ∧
    aggregatedSumIssue witnessReceipt = [] := by
  have hok : transformReceipt witnessPayload none "2024-01-01T00:00:00.000Z" =
      .ok witnessReceipt := by
    rfl
  obtain ⟨h1, _, h3⟩ := aggregation_total_preserving hok
  exact ⟨hok, h1, h3⟩

end

end Slyp
